import Mathlib

/-!
Verification development for the ReMakeplace auto-updater (src/updater.py).

The Python source is shallowly embedded: every definition below mirrors a
function or code block of updater.py (line numbers quoted in doc comments),
with machine state (filesystem, download cache, configuration) made explicit.
Definitions written from the source are named after the source symbols.
Definitions that transcribe the specification text (for refinement
comparisons) carry a clearly distinct name and say so in their doc comment.
-/

namespace Updater

/-! ### Small character and list helpers used by the embedded parsers -/

/-- Numeric value of a list of decimal digit characters (as Python int()). -/
def digitsVal (ds : List Char) : Nat :=
  ds.foldl (fun a c => a * 10 + (c.toNat - 48)) 0

/-- Lowercase a single ASCII character (packaging canonicalizes case). -/
def lowerChar (c : Char) : Char :=
  if c.isUpper then Char.ofNat (c.toNat + 32) else c

/-- Split a list of characters on a separator character. -/
def splitOnChar (sep : Char) : List Char → List (List Char)
  | [] => [[]]
  | c :: cs =>
    let rest := splitOnChar sep cs
    if c == sep then [] :: rest
    else match rest with
      | [] => [[c]]
      | r :: rs => (c :: r) :: rs

/-- Take a leading run of decimal digits; fails when there is none. -/
def takeNum (cs : List Char) : Option (Nat × List Char) :=
  let ds := cs.takeWhile Char.isDigit
  if ds.isEmpty then none else some (digitsVal ds, cs.drop ds.length)

/-! ### PEP 440 version fragment

updater.py compares versions with packaging.version.parse (lines 468-471).
The fragment below embeds packaging's parser and comparison key for the
version shapes reachable here: a dotted numeric release, an optional
pre-release (a / b / c / rc / alpha / beta / pre / preview with an optional
number), and an optional local segment introduced by a plus sign.  Epoch,
post- and dev-releases do not occur in this program's version strings and
are not part of the grammar; such inputs parse to none, as do all other
strings rejected by packaging (version.parse raises InvalidVersion there).
-/

/-- One segment of a PEP 440 local version: numeric or alphanumeric. -/
inductive LSeg where
  | num (n : Nat)
  | str (s : String)
deriving DecidableEq, Repr

/-- Parsed PEP 440 version (fragment: release, optional pre, optional local). -/
structure PVer where
  release : List Nat
  pre : Option (Nat × Nat)
  localVer : Option (List LSeg)
deriving DecidableEq, Repr

/-- Parse the dotted numeric release, returning the remaining characters. -/
def takeRelease : Nat → List Char → Option (List Nat × List Char)
  | 0, _ => none
  | fuel + 1, cs => do
    let (n, rest) ← takeNum cs
    match rest with
    | '.' :: rest2 =>
      if (rest2.headD ' ').isDigit then do
        let (ns, rest3) ← takeRelease fuel rest2
        some (n :: ns, rest3)
      else some ([n], rest)
    | _ => some ([n], rest)

/-- Match a literal word at the head of the character list. -/
def matchWord (w cs : List Char) : Option (List Char) :=
  if w.isPrefixOf cs then some (cs.drop w.length) else none

/-- Pre-release phase words accepted by packaging, with their normalized
rank: alpha 0, beta 1, release-candidate 2.  Longer words come first so
that the first match is the longest one. -/
def preWords : List (List Char × Nat) :=
  [(['p','r','e','v','i','e','w'], 2), (['a','l','p','h','a'], 0),
   (['b','e','t','a'], 1), (['p','r','e'], 2), (['r','c'], 2),
   (['a'], 0), (['b'], 1), (['c'], 2)]

/-- Is the character one of the PEP 440 separators before or after a
pre-release word? -/
def isSep (c : Char) : Bool :=
  c == '-' || c == '_' || c == '.'

/-- Parse the optional pre-release part; the whole remainder must be
consumed, otherwise the version string is invalid. -/
def parsePre (cs : List Char) : Option (Option (Nat × Nat)) :=
  match cs with
  | [] => some none
  | _ =>
    let cs1 := match cs with
      | c :: rest => if isSep c then rest else cs
      | [] => cs
    match preWords.findSome? (fun w =>
        (matchWord w.1 cs1).map (fun r => (w.2, r))) with
    | none => none
    | some (rank, rest) =>
      let rest1 := match rest with
        | c :: rest2 => if isSep c then rest2 else rest
        | [] => rest
      match takeNum rest1 with
      | some (n, []) => some (some (rank, n))
      | some (_, _ :: _) => none
      | none => if rest1.isEmpty then some (some (rank, 0)) else none

/-- Parse one segment of a local version. -/
def parseSeg (p : List Char) : Option LSeg :=
  if p.isEmpty then none
  else if p.all Char.isDigit then some (LSeg.num (digitsVal p))
  else if p.all (fun c => c.isDigit || c.isAlpha) then some (LSeg.str (String.mk p))
  else none

/-- Parse a PEP 440 local version: segments split on the separators, all of
which normalize to a dot; numeric segments become integers. -/
def parseLocal (cs : List Char) : Option (List LSeg) :=
  let norm := cs.map (fun c => if c == '-' || c == '_' then '.' else c)
  match (splitOnChar '.' norm).mapM parseSeg with
  | some (s :: ss) => some (s :: ss)
  | _ => none

/-- Parse the public part (release plus optional pre-release). -/
def parsePublic (cs : List Char) : Option (List Nat × Option (Nat × Nat)) := do
  let (rel, rest) ← takeRelease (cs.length + 1) cs
  let pre ← parsePre rest
  some (rel, pre)

/-- Embedding of packaging.version.parse on the fragment grammar, as used in
update_ui_after_check (updater.py lines 468-469); none stands for the
InvalidVersion exception. -/
def pep440Parse (s : String) : Option PVer :=
  let cs := (s.toList.map lowerChar).dropWhile (fun c => c == ' ')
  match splitOnChar '+' cs with
  | [pub] => do
    let (rel, pre) ← parsePublic pub
    some ⟨rel, pre, none⟩
  | [pub, loc] => do
    let (rel, pre) ← parsePublic pub
    let l ← parseLocal loc
    some ⟨rel, pre, some l⟩
  | _ => none

/-! ### packaging comparison key (Version._cmpkey)

For versions in the fragment grammar the key reduces to the triple
(release with trailing zeros removed, pre-release key, local key):
the epoch is 0, the post-release key is a constant negative infinity and
the dev-release key a constant positive infinity on both sides.
-/

/-- Remove trailing zeros from the release tuple, as packaging's _cmpkey
does before comparing releases. -/
def relKey : List Nat → List Nat
  | [] => []
  | n :: rest =>
    match relKey rest with
    | [] => if n == 0 then [] else [n]
    | r :: rs => n :: r :: rs

/-- Lexicographic comparison of numeric tuples (Python tuple comparison). -/
def lexNat : List Nat → List Nat → Ordering
  | [], [] => .eq
  | [], _ :: _ => .lt
  | _ :: _, [] => .gt
  | a :: as, b :: bs =>
    match compare a b with
    | .eq => lexNat as bs
    | o => o

/-- Compare pre-release keys: absence of a pre-release sorts as positive
infinity (a final release is newer than any of its pre-releases). -/
def cmpPre : Option (Nat × Nat) → Option (Nat × Nat) → Ordering
  | none, none => .eq
  | none, some _ => .gt
  | some _, none => .lt
  | some (r1, n1), some (r2, n2) =>
    match compare r1 r2 with
    | .eq => compare n1 n2
    | o => o

/-- Compare local segments: packaging maps an integer segment i to (i, "")
and a string segment s to (negative infinity, s), so every numeric segment
is greater than every alphanumeric one. -/
def cmpLSeg : LSeg → LSeg → Ordering
  | .num i, .num j => compare i j
  | .num _, .str _ => .gt
  | .str _, .num _ => .lt
  | .str a, .str b => compare a b

/-- Lexicographic comparison of local segment lists (Python tuples). -/
def lexLSeg : List LSeg → List LSeg → Ordering
  | [], [] => .eq
  | [], _ :: _ => .lt
  | _ :: _, [] => .gt
  | a :: as, b :: bs =>
    match cmpLSeg a b with
    | .eq => lexLSeg as bs
    | o => o

/-- Compare local keys: absence of a local version sorts as negative
infinity, so any local version is greater than the bare public version. -/
def cmpLocal : Option (List LSeg) → Option (List LSeg) → Ordering
  | none, none => .eq
  | none, some _ => .lt
  | some _, none => .gt
  | some a, some b => lexLSeg a b

/-- packaging's Version ordering on the fragment: compare the release key,
then the pre-release key, then the local key. -/
def pvCompare (v w : PVer) : Ordering :=
  match lexNat (relKey v.release) (relKey w.release) with
  | .eq =>
    match cmpPre v.pre w.pre with
    | .eq => cmpLocal v.localVer w.localVer
    | o => o
  | o => o

/-! ### Semantic-version ordering, modelled from the specification

The specification (section 4.1) prescribes comparison under standard
semantic-version ordering with pre-release precedence rules.  The
definitions below transcribe the semver.org precedence rules; they are the
specification side of the refinement comparison and deliberately do not
come from updater.py, which uses packaging instead. -/

/-- One semver pre-release identifier: numeric or alphanumeric. -/
inductive SvId where
  | num (n : Nat)
  | alnum (s : String)
deriving DecidableEq, Repr

/-- A parsed semantic version; build metadata is dropped at parse time since
semver precedence ignores it. -/
structure SemVer where
  major : Nat
  minor : Nat
  patch : Nat
  pre : List SvId
deriving DecidableEq, Repr

/-- Compare semver pre-release identifiers: numeric identifiers always have
lower precedence than alphanumeric ones; numeric compare numerically,
alphanumeric compare in ASCII order. -/
def svIdCompare : SvId → SvId → Ordering
  | .num i, .num j => compare i j
  | .num _, .alnum _ => .lt
  | .alnum _, .num _ => .gt
  | .alnum a, .alnum b => compare a b

/-- Compare nonempty pre-release identifier lists field by field; a shorter
list that is a prefix of a longer one has lower precedence. -/
def svPreCompare : List SvId → List SvId → Ordering
  | [], [] => .eq
  | [], _ :: _ => .lt
  | _ :: _, [] => .gt
  | a :: as, b :: bs =>
    match svIdCompare a b with
    | .eq => svPreCompare as bs
    | o => o

/-- Semver precedence: major, minor, patch numerically; a version without a
pre-release has higher precedence than the same version with one; two
pre-releases compare identifier-wise. -/
def svCompare (v w : SemVer) : Ordering :=
  match compare v.major w.major with
  | .eq =>
    match compare v.minor w.minor with
    | .eq =>
      match compare v.patch w.patch with
      | .eq =>
        match v.pre, w.pre with
        | [], [] => .eq
        | [], _ :: _ => .gt
        | _ :: _, [] => .lt
        | a, b => svPreCompare a b
      | o => o
    | o => o
  | o => o

/-- Parse a semver numeric identifier: digits only, no leading zeros. -/
def parseNumStrict (p : List Char) : Option Nat :=
  match p with
  | [] => none
  | c :: rest =>
    if p.all Char.isDigit && (rest.isEmpty || !(c == '0')) then
      some (digitsVal p)
    else none

/-- Parse one semver pre-release identifier. -/
def parseSvId (p : List Char) : Option SvId :=
  if p.isEmpty then none
  else if p.all Char.isDigit then (parseNumStrict p).map SvId.num
  else if p.all (fun c => c.isDigit || c.isAlpha || c == '-') then
    some (SvId.alnum (String.mk p))
  else none

/-- Is the list a valid semver build-metadata identifier? -/
def validBuildId (p : List Char) : Bool :=
  !p.isEmpty && p.all (fun c => c.isDigit || c.isAlpha || c == '-')

/-- Split a character list at the first occurrence of the separator; the
remainder keeps everything after it.  Returns the list unsplit when the
separator does not occur. -/
def splitFirst (sep : Char) (cs : List Char) : List Char × Option (List Char) :=
  match cs with
  | [] => ([], none)
  | c :: rest =>
    if c == sep then ([], some rest)
    else
      let (l, r) := splitFirst sep rest
      (c :: l, r)

/-- Parse a semantic version string: major.minor.patch, an optional
pre-release after the first hyphen, optional build metadata after a plus
sign (validated, then ignored for precedence). -/
def semverParse (s : String) : Option SemVer := do
  let (beforeBuild, build) := splitFirst '+' s.toList
  match build with
  | some b => if (splitOnChar '.' b).all validBuildId then pure () else none
  | none => pure ()
  let (core, preStr) := splitFirst '-' beforeBuild
  let pre ← match preStr with
    | none => some []
    | some p =>
      match (splitOnChar '.' p).mapM parseSvId with
      | some (i :: is) => some (i :: is)
      | _ => none
  match (splitOnChar '.' core).mapM parseNumStrict with
  | some [a, b, c] => some ⟨a, b, c, pre⟩
  | _ => none

/-- Specification-side check (section 8): is the remote version strictly
newer than the local one under semver precedence?  none when either string
is not a semantic version. -/
def semverNewer (remote localVersion : String) : Option Bool := do
  let r ← semverParse remote
  let l ← semverParse localVersion
  some (svCompare l r == Ordering.lt)

/-! ### Release feed, version check and update start

check_for_updates (updater.py lines 437-462) fetches the release feed,
strips leading v characters from the tag with lstrip, and records the
download url of the first asset whose name ends in .7z.
update_ui_after_check (lines 464-477) parses both versions with packaging
and enables the update exactly when the remote version is greater.
start_update (lines 479-490) silently returns when no update is available
or no download url was recorded. -/

/-- One release asset as consumed from the feed JSON. -/
structure Asset where
  name : String
  browser_download_url : String
deriving DecidableEq, Repr

/-- The consumed part of the release feed body. -/
structure Release where
  tag_name : String
  assets : List Asset
deriving DecidableEq, Repr

/-- Python str.lstrip("v"): remove every leading v character (line 446). -/
def stripLeadingV (s : String) : String :=
  String.mk (s.toList.dropWhile (fun c => c == 'v'))

/-- Python str.startswith, on the character lists. -/
def strStartsWith (s pre : String) : Bool :=
  pre.toList.isPrefixOf s.toList

/-- Python str.endswith, on the character lists. -/
def strEndsWith (s suffix : String) : Bool :=
  suffix.toList.reverse.isPrefixOf s.toList.reverse

/-- The asset-selection loop of check_for_updates (lines 449-452): first
asset in feed order whose name ends with .7z, else no url is recorded. -/
def findAsset (assets : List Asset) : Option String :=
  (assets.find? (fun a => strEndsWith a.name (".7z"))).map
    (fun a => a.browser_download_url)

/-- Outcome surfaced by the version check.  checkError stands for the
uncaught InvalidVersion exception escaping the UI callback; the callback
otherwise reports exactly one of the two states (lines 471-477). -/
inductive CheckOutcome where
  | upToDate
  | updateAvailable
  | checkError
deriving DecidableEq, Repr

/-- update_ui_after_check (lines 464-477): parse both version strings with
packaging and report an update exactly when latest is strictly greater.
The special case for the string 0.0.0 at line 468 parses the same string
and is the identity. -/
def update_ui_after_check (currentVersion latestVersion : String) : CheckOutcome :=
  match pep440Parse currentVersion, pep440Parse latestVersion with
  | some cur, some latest =>
    if pvCompare cur latest = Ordering.lt then CheckOutcome.updateAvailable
    else CheckOutcome.upToDate
  | _, _ => CheckOutcome.checkError

/-- check_for_updates network-thread body (lines 442-452): latest version
string after lstrip, and the recorded download url. -/
def check_for_updates (rel : Release) : String × Option String :=
  (stripLeadingV rel.tag_name, findAsset rel.assets)

/-- The whole check as observed by the caller: UI outcome plus the recorded
download url. -/
def checkUpdateOutcome (currentVersion : String) (rel : Release) :
    CheckOutcome × Option String :=
  let (latest, url) := check_for_updates rel
  (update_ui_after_check currentVersion latest, url)

/-- start_update guard (lines 481-482): the update thread starts only when
an update is available and a download url was recorded; otherwise the
method silently returns. -/
def start_update (update_available : Bool) (download_url : Option String) : Bool :=
  if !update_available || download_url.isNone then false else true

/-! ### Download (download_file, updater.py lines 576-613)

The transfer is abstracted by the chunk sizes the server sends and by where
a failure strikes: before the destination file is opened (request error,
directory creation or open failure) or after a given number of chunks.
The destination file content is the list of written chunk sizes. -/

/-- Environment of one download attempt. -/
structure DlEnv where
  chunks : List Nat
  failAfter : Option Nat
  contentLength : Nat
  earlyFail : Bool
deriving DecidableEq, Repr

/-- The except-handler of download_file (lines 609-612): if a file exists at
the destination it is removed (unlink with missing_ok). -/
def removeIncomplete (f : Option (List Nat)) : Option (List Nat) :=
  match f with
  | some _ => none
  | none => none

/-- download_file (lines 576-613).  Input: environment and the file at the
destination before the call.  Output: the file at the destination after the
call, and ok or the raised error.  The loop writes each nonzero chunk
(`if chunk:` skips empty ones) and counts downloaded bytes; after the loop
a declared content-length that disagrees with the byte count raises; any
raise reaches the handler, which deletes the destination file. -/
def download_file (env : DlEnv) (dest0 : Option (List Nat)) :
    Option (List Nat) × Except String Unit :=
  if env.earlyFail then
    (removeIncomplete dest0, Except.error "Download failed: request error")
  else
    let received := match env.failAfter with
      | some n => env.chunks.take n
      | none => env.chunks
    let fileContent := received.filter (fun c => c != 0)
    let downloaded := received.foldl (fun a c => a + c) 0
    match env.failAfter with
    | some _ =>
      (removeIncomplete (some fileContent),
       Except.error "Download failed: connection error")
    | none =>
      if env.contentLength > 0 && downloaded != env.contentLength then
        (removeIncomplete (some fileContent),
         Except.error "Download failed: Download incomplete")
      else (some fileContent, Except.ok ())

/-! ### Filesystem model

A filesystem is the list of its regular files: a path (list of name
components) with an abstract content.  Directories are implicit — a
directory exists when some file lies strictly below its path — matching
what shutil.copytree and shutil.rmtree transport in terms of file sets.
Lookup uses the first matching entry. -/

/-- A filesystem path, as a list of name components. -/
abbrev FPath := List String

/-- A filesystem: association list from file path to content. -/
abbrev FS := List (FPath × Nat)

/-- Content of the file at a path, if a file is there (first entry wins). -/
def fileAt : FS → FPath → Option Nat
  | [], _ => none
  | e :: rest, p => if e.1 == p then some e.2 else fileAt rest p

/-- Does a regular file sit at this path? -/
def isFile (fs : FS) (p : FPath) : Bool :=
  (fileAt fs p).isSome

/-- Does a directory sit at this path (some file strictly below it)? -/
def isDirAt (fs : FS) (p : FPath) : Bool :=
  fs.any (fun e => p.isPrefixOf e.1 && e.1 != p)

/-- Path.exists: a file or a directory is at the path. -/
def fsExists (fs : FS) (p : FPath) : Bool :=
  isFile fs p || isDirAt fs p

/-- The files below a root, keyed by their path relative to it. -/
def subtree (fs : FS) (root : FPath) : FS :=
  (fs.filter (fun e => root.isPrefixOf e.1)).map
    (fun e => (e.1.drop root.length, e.2))

/-- Does a file at path q survive rmtree of the root? -/
def rmKeep (root q : FPath) : Bool :=
  !root.isPrefixOf q

/-- shutil.rmtree: remove every file at or below the root. -/
def rmtree (fs : FS) (root : FPath) : FS :=
  fs.filter (fun e => rmKeep root e.1)

/-- Is an old file at path q kept by a copy of src onto dst?  It is
overwritten exactly when it lies below dst and src holds a file at the
corresponding relative path. -/
def copyKeep (fs : FS) (src dst q : FPath) : Bool :=
  !(dst.isPrefixOf q && isFile fs (src ++ q.drop dst.length))

/-- Recursive copy of the subtree at src onto dst.  A dst file is replaced
when src holds a file at the corresponding relative path, and kept
otherwise (the dirs_exist_ok merge behaviour; when dst did not exist both
behaviours coincide). -/
def copyInto (fs : FS) (src dst : FPath) : FS :=
  (subtree fs src).map (fun e => (dst ++ e.1, e.2)) ++
  fs.filter (fun e => copyKeep fs src dst e.1)

/-- shutil.copytree with dirs_exist_ok=True (updater.py line 644): raises
NotADirectoryError when src is a regular file, or FileExistsError when a
regular file sits at dst. -/
def copytreeMerge (fs : FS) (src dst : FPath) : Except String FS :=
  if isFile fs src then Except.error "NotADirectoryError"
  else if isFile fs dst then Except.error "FileExistsError"
  else Except.ok (copyInto fs src dst)

/-- shutil.copytree without dirs_exist_ok (updater.py line 717): also raises
FileExistsError when anything exists at dst. -/
def copytreeStrict (fs : FS) (src dst : FPath) : Except String FS :=
  if isFile fs src then Except.error "NotADirectoryError"
  else if fsExists fs dst then Except.error "FileExistsError"
  else Except.ok (copyInto fs src dst)

/-! ### Backup and restore of the preserved folders

Backup is updater.py lines 639-644: for each preserved folder that exists
under the installation path, copytree it into the backup area (the parent
mkdir is a no-op in the file-set model).  Restore is lines 711-717: for
each preserved folder present in the backup area, remove what is at the
destination and copytree the backup into place. -/

/-- One iteration of the backup loop (lines 639-644). -/
def backupStep (installRoot backupRoot : FPath) (fs : FS) (folder : FPath) :
    Except String FS :=
  let src := installRoot ++ folder
  if fsExists fs src then copytreeMerge fs src (backupRoot ++ folder)
  else Except.ok fs

/-- The backup loop; an exception stops it, leaving the filesystem as it
was when the exception was raised (copytree raises before copying). -/
def backupList (installRoot backupRoot : FPath) (fs : FS) :
    List FPath → FS × Option String
  | [] => (fs, none)
  | f :: rest =>
    match backupStep installRoot backupRoot fs f with
    | Except.ok fs2 => backupList installRoot backupRoot fs2 rest
    | Except.error e => (fs, some e)

/-- One iteration of the restore loop (lines 711-717).  rmtree on a path
holding a regular file raises NotADirectoryError. -/
def restoreStep (installRoot backupRoot : FPath) (fs : FS) (folder : FPath) :
    FS × Option String :=
  let bsrc := backupRoot ++ folder
  if fsExists fs bsrc then
    let dst := installRoot ++ folder
    if fsExists fs dst && isFile fs dst then (fs, some "NotADirectoryError")
    else
      let fs1 := rmtree fs dst
      match copytreeStrict fs1 bsrc dst with
      | Except.ok fs2 => (fs2, none)
      | Except.error e => (fs1, some e)
  else (fs, none)

/-- The restore loop; an exception stops it. -/
def restoreList (installRoot backupRoot : FPath) (fs : FS) :
    List FPath → FS × Option String
  | [] => (fs, none)
  | f :: rest =>
    match restoreStep installRoot backupRoot fs f with
    | (fs2, none) => restoreList installRoot backupRoot fs2 rest
    | (fs2, some e) => (fs2, some e)

/-! ### Archive extraction (install_update, updater.py lines 649-706)

Three backends: the in-process py7zr reader, a command-line 7z located by
probing a fixed candidate list, and the built-in zipfile reader.  The
environment fixes the outcome each backend would have, and the archive is
abstracted by the relative files a successful extraction writes below the
installation path.  The control flow is transcribed exactly: the zipfile
attempt sits in the handler of the second method's exception, so it runs
only when that block raised. -/

/-- The three extraction backends. -/
inductive Backend where
  | py7zr
  | sevenzip
  | zipfile
deriving DecidableEq, Repr

/-- Outcomes the environment fixes for one extraction. -/
structure ExtractEnv where
  py7zrOk : Bool
  py7zrMsg : String
  runReturns : String → Bool
  sevenZipRet : Nat
  zipOk : Bool
  archive : List (FPath × Nat)

/-- Files written below the installation path by a successful extraction,
replacing files of the same name. -/
def mergeArchive (fs : FS) (root : FPath) (archive : List (FPath × Nat)) : FS :=
  archive.map (fun e => (root ++ e.1, e.2)) ++
  fs.filter (fun e => !(archive.any (fun a2 => root ++ a2.1 == e.1)))

/-- Candidate 7z locations probed at lines 664-668. -/
def seven_zip_paths : List String :=
  ["7z", "C:\\Program Files\\7-Zip\\7z.exe", "C:\\Program Files (x86)\\7-Zip\\7z.exe"]

/-- The extraction block (lines 649-699): filesystem afterwards, backends
attempted, and whether extraction_success ended up true.  When py7zr fails
and no probe locates a 7z executable, the inner try block completes without
raising, so the zipfile fallback in its except-handler never runs. -/
def extractInstall (ee : ExtractEnv) (installRoot : FPath) (fs : FS) :
    FS × List Backend × Bool :=
  if ee.py7zrOk then
    (mergeArchive fs installRoot ee.archive, [Backend.py7zr], true)
  else
    match seven_zip_paths.find? ee.runReturns with
    | none => (fs, [Backend.py7zr, Backend.sevenzip], false)
    | some _ =>
      if ee.sevenZipRet == 0 then
        (mergeArchive fs installRoot ee.archive,
         [Backend.py7zr, Backend.sevenzip], true)
      else if ee.zipOk then
        (mergeArchive fs installRoot ee.archive,
         [Backend.py7zr, Backend.sevenzip, Backend.zipfile], true)
      else (fs, [Backend.py7zr, Backend.sevenzip, Backend.zipfile], false)

/-- Does pat occur as a contiguous run inside the character list? -/
def listContains (pat : List Char) : List Char → Bool
  | [] => pat.isEmpty
  | c :: rest => pat.isPrefixOf (c :: rest) || listContains pat rest

/-- Python substring membership test (the in operator). -/
def strContains (s pat : String) : Bool :=
  listContains pat.toList s.toList

/-- The aggregated error built at lines 702-706 when extraction_success is
false: a fixed message with a remediation hint, plus the py7zr diagnostic
only when that diagnostic mentions BCJ2. -/
def extractionErrorMsg (py7zrMsg : String) : String :=
  let base := "Failed to extract archive. The file uses an unsupported compression format (likely BCJ2 filter). Please install 7-Zip from https://www.7-zip.org/ and try again."
  if strContains py7zrMsg ("BCJ2") then
    base ++ "\n\nTechnical details: " ++ py7zrMsg
  else base

/-- The configuration fields install_update reads. -/
structure Config where
  installation_path : FPath
  preserve_folders : List FPath

/-- The backup holding area, Path("temp_backup") at line 634. -/
def backup_dir : FPath := ["temp_backup"]

/-- Exit path of install_update: both the success tail (line 720) and the
except-handler (lines 722-726) remove the holding area before returning. -/
def installResult (fsX : FS) (r : Except String Unit) (att : List Backend) :
    FS × Except String Unit × List Backend :=
  (rmtree fsX backup_dir, r, att)

/-- install_update (lines 620-727): validate paths, back up the preserved
folders, extract, restore, clean the holding area; on any exception the
holding area is removed (lines 722-726) and the wrapped error is raised.
Returns the filesystem, the result, and the extraction backends attempted. -/
def install_update (cfg : Config) (ee : ExtractEnv) (archiveExists : Bool)
    (fs : FS) : FS × Except String Unit × List Backend :=
  if !(fsExists fs cfg.installation_path) then
    installResult fs
      (Except.error "Installation failed: Installation path does not exist") []
  else if !archiveExists then
    installResult fs
      (Except.error "Installation failed: Update archive not found") []
  else
    match backupList cfg.installation_path backup_dir fs cfg.preserve_folders with
    | (fsE, some e) =>
      installResult fsE (Except.error ("Installation failed: " ++ e)) []
    | (fs1, none) =>
      let step := extractInstall ee cfg.installation_path fs1
      if step.2.2 then
        match restoreList cfg.installation_path backup_dir step.1
            cfg.preserve_folders with
        | (fsE, some e) =>
          installResult fsE (Except.error ("Installation failed: " ++ e))
            step.2.1
        | (fs3, none) => installResult fs3 (Except.ok ()) step.2.1
      else
        installResult step.1
          (Except.error ("Installation failed: " ++ extractionErrorMsg ee.py7zrMsg))
          step.2.1

/-! ### Cache cleanup (cleanup_cache, updater.py lines 537-574)

The cache directory state is the list of its file names plus a directory
existence flag.  The environment says which filesystem operations would
raise.  Every raise site sits under a handler: the per-file unlink under
the inner try at lines 553-557 (the file then simply stays), the rmdir
under the try at lines 561-568, and everything else under the outer
try/except at lines 539-574. -/

/-- Which cleanup filesystem operations raise. -/
structure CleanupEnv where
  unlinkFails : String → Bool
  iterFails : Bool
  rmdirFails : Bool

/-- Body of cleanup_cache under the outer try.  A file is kept when it
matches the current-version ("v" ++ version ++ "_") name and keeping is
requested, or when its unlink raised (caught at lines 556-557); the
directory is removed only when emptied, keep_current is false and rmdir
does not raise (raises caught at lines 567-568). -/
def cleanupBody (env : CleanupEnv) (latest : String) (keep_current : Bool)
    (cache : List String) (dirExists : Bool) :
    Except String (List String × Bool) :=
  if !dirExists then Except.ok (cache, dirExists)
  else if env.iterFails then Except.error "cache directory iteration failed"
  else
    let currentVersionPre := "v" ++ latest ++ "_"
    let remaining := cache.filter (fun f =>
      (keep_current && strStartsWith f currentVersionPre) || env.unlinkFails f)
    let dirAfter :=
      if !keep_current && (remaining.isEmpty && !env.rmdirFails) then false
      else dirExists
    Except.ok (remaining, dirAfter)

/-- cleanup_cache (lines 537-574): the outer except (lines 573-574) prints
the error and returns normally.  The only raise reaching it is the
iteration failure, which precedes any mutation, so the state is returned
unchanged. -/
def cleanup_cache (env : CleanupEnv) (latest : String) (keep_current : Bool)
    (cache : List String) (dirExists : Bool) :
    Except String (List String × Bool) :=
  match cleanupBody env latest keep_current cache dirExists with
  | Except.ok r => Except.ok r
  | Except.error _ => Except.ok (cache, dirExists)

/-! ### The pipeline (download_and_install, lines 492-535, and
update_complete, lines 729-747) -/

/-- Mutable state across one run: cache directory contents, cache directory
existence, filesystem (installation plus holding area), and the persisted
current version. -/
structure PState where
  cache : List String
  cacheDirExists : Bool
  fs : FS
  currentVersion : String

/-- Everything the environment decides for one run. -/
structure PipeEnv where
  cfg : Config
  latestVersion : String
  downloadUrl : String
  dl : DlEnv
  ee : ExtractEnv
  cleanupA : CleanupEnv
  cleanupB : CleanupEnv

/-- Result of one run. -/
inductive RunResult where
  | completed
  | failed (msg : String)
deriving DecidableEq, Repr

/-- Instrumentation: which steps ran. -/
structure Trace where
  downloadInvoked : Bool
  installInvoked : Bool
  attempted : List Backend
deriving DecidableEq, Repr

/-- Python url.split("/")[-1] (line 500). -/
def lastComponent (url : String) : String :=
  String.mk ((splitOnChar '/' url.toList).getLastD [])

/-- The deterministic cache file name for a version and asset (line 501). -/
def cacheFileName (latestVersion url : String) : String :=
  "v" ++ latestVersion ++ "_" ++ lastComponent url

/-- The download stage of download_and_install (lines 495-512): ensure the
cache directory exists, compute the deterministic cache path, and download
only when no file is there.  Returns the state afterwards, the raised
error if any, and whether the download step was invoked. -/
def downloadPhase (env : PipeEnv) (st : PState) :
    PState × Option String × Bool :=
  let st0 : PState := { st with cacheDirExists := true }
  let cacheName := cacheFileName env.latestVersion env.downloadUrl
  if st0.cache.contains cacheName then (st0, none, false)
  else
    let dl := download_file env.dl none
    let st1 : PState :=
      { st0 with
        cache := if dl.1.isSome then cacheName :: st0.cache else st0.cache }
    match dl.2 with
    | Except.error m => (st1, some m, true)
    | Except.ok _ => (st1, none, true)

/-- The success tail of download_and_install (lines 519-530) followed by
the scheduled update_complete (lines 729-747): persist the new version,
prune the cache keeping the current version (line 524), then prune again
keeping nothing (line 742).  The unreachable error arms repeat the state
unchanged; cleanup_cache always returns ok. -/
def finishSuccess (env : PipeEnv) (dlFlag : Bool) (att : List Backend)
    (st2 : PState) : PState × RunResult × Trace :=
  let c1 := match cleanup_cache env.cleanupA env.latestVersion true
      st2.cache st2.cacheDirExists with
    | Except.ok r => r
    | Except.error _ => (st2.cache, st2.cacheDirExists)
  let st3 : PState := { st2 with cache := c1.1, cacheDirExists := c1.2 }
  let c2 := match cleanup_cache env.cleanupB env.latestVersion false
      st3.cache st3.cacheDirExists with
    | Except.ok r => r
    | Except.error _ => (st3.cache, st3.cacheDirExists)
  ({ st3 with cache := c2.1, cacheDirExists := c2.2 },
   RunResult.completed, ⟨dlFlag, true, att⟩)

/-- The installation stage (lines 515-530): install from the cached
archive; an exception reports failure (lines 532-535) without touching the
cache, success persists the version and runs the cleanups. -/
def installPhase (env : PipeEnv) (cacheName : String) (dlFlag : Bool)
    (st1 : PState) : PState × RunResult × Trace :=
  let inst := install_update env.cfg env.ee (st1.cache.contains cacheName)
    st1.fs
  match inst.2.1 with
  | Except.error m =>
    ({ st1 with fs := inst.1 },
     RunResult.failed ("Update failed: " ++ m), ⟨dlFlag, true, inst.2.2⟩)
  | Except.ok _ =>
    finishSuccess env dlFlag inst.2.2
      { st1 with fs := inst.1, currentVersion := env.latestVersion }

/-- download_and_install (lines 492-535) followed by the scheduled
update_complete (lines 729-747).  Any exception is caught at lines
532-535, reporting failure without touching the cache. -/
def download_and_install (env : PipeEnv) (st : PState) :
    PState × RunResult × Trace :=
  let dp := downloadPhase env st
  match dp.2.1 with
  | some m =>
    (dp.1, RunResult.failed ("Update failed: " ++ m), ⟨dp.2.2, false, []⟩)
  | none =>
    installPhase env (cacheFileName env.latestVersion env.downloadUrl)
      dp.2.2 dp.1

/-! ### Verification vocabulary -/

/-- Is the path p covered by one of the preserved folders that exists in
the reference filesystem below the installation root?  Exactly these paths
receive a copy in the holding area during backup. -/
def coverB (ir : FPath) (fs0 : FS) (folders : List FPath) (p : FPath) : Bool :=
  folders.any (fun f => f.isPrefixOf p && fsExists fs0 (ir ++ f))

/-! ### Basic lemmas about the pipeline stages -/

/-- With the deterministic cache file already present, the download stage
reports a hit: no error, download not invoked. -/
theorem downloadPhase_hit (env : PipeEnv) (st : PState)
    (h : st.cache.contains (cacheFileName env.latestVersion env.downloadUrl)
      = true) :
    downloadPhase env st = ({ st with cacheDirExists := true }, none, false) := by
  unfold downloadPhase
  dsimp only
  rw [if_pos h]

/-- The download stage always leaves the cache directory flag set. -/
theorem downloadPhase_dirExists (env : PipeEnv) (st : PState) :
    (downloadPhase env st).1.cacheDirExists = true := by
  unfold downloadPhase
  dsimp only
  split
  · rfl
  · split <;> rfl

/-- The download stage never removes a cache entry. -/
theorem downloadPhase_cache_mem (env : PipeEnv) (st : PState) (f : String)
    (hf : f ∈ st.cache) : f ∈ (downloadPhase env st).1.cache := by
  unfold downloadPhase
  dsimp only
  split
  · exact hf
  · split <;> (dsimp only; split)
    · exact List.mem_cons_of_mem _ hf
    · exact hf
    · exact List.mem_cons_of_mem _ hf
    · exact hf

/-- The installation stage records the download flag, that installation was
invoked, and the attempted backends. -/
theorem installPhase_trace (env : PipeEnv) (cn : String) (b : Bool)
    (st1 : PState) :
    (installPhase env cn b st1).2.2 =
      ⟨b, true,
       (install_update env.cfg env.ee (st1.cache.contains cn) st1.fs).2.2⟩ := by
  unfold installPhase finishSuccess
  dsimp only
  split <;> rfl

/-- The success tail always reports completion. -/
theorem finishSuccess_result (env : PipeEnv) (b : Bool) (att : List Backend)
    (st2 : PState) : (finishSuccess env b att st2).2.1 = RunResult.completed :=
  rfl

/-! ## Claim C5: a failed download leaves no file at the destination -/

/-- Every run of download_file either leaves no destination file or
returns ok: the except-handler deletes the file on every raising path. -/
theorem download_file_cases (env : DlEnv) (dest0 : Option (List Nat)) :
    (download_file env dest0).1 = none ∨
    (download_file env dest0).2 = Except.ok () := by
  unfold download_file
  split
  · left
    cases dest0 <;> rfl
  · split
    · left; rfl
    · dsimp only
      split
      · left; rfl
      · right; rfl

/-- C5.  For every download that fails for any reason — an early request
failure, a connection failure mid-transfer, or a declared content-length
disagreeing with the bytes received — no file exists at the destination
path afterwards: download_file deletes the partial file before the error
propagates (updater.py lines 609-613). -/
theorem download_file_leaves_no_partial_file (env : DlEnv)
    (dest0 : Option (List Nat)) (m : String)
    (h : (download_file env dest0).2 = Except.error m) :
    (download_file env dest0).1 = none := by
  rcases download_file_cases env dest0 with h1 | h2
  · exact h1
  · rw [h2] at h
    exact absurd h (by simp)

/-- Witness for C5: a transfer whose declared content-length (9000) differs
from the received byte count (8292) fails and leaves no file. -/
theorem download_file_leaves_no_partial_file_witness :
    (download_file ⟨[8192, 100], none, 9000, false⟩ none).2 =
      Except.error "Download failed: Download incomplete" ∧
    (download_file ⟨[8192, 100], none, 9000, false⟩ none).1 = none :=
  ⟨rfl,
   download_file_leaves_no_partial_file ⟨[8192, 100], none, 9000, false⟩ none
     "Download failed: Download incomplete" rfl⟩

/-! ## Claim C10: cache pruning never raises -/

/-- C10.  For every cache state, version string, keep flag and any
combination of filesystem failures during pruning, cleanup_cache returns
normally: the per-file unlink failures are caught at lines 556-557, the
rmdir failure at lines 567-568, and everything else by the outer handler
at lines 573-574 — so a failure during cache pruning can never make an
otherwise-successful run report failure. -/
theorem cleanup_cache_always_returns_normally (env : CleanupEnv)
    (latest : String) (keep_current : Bool) (cache : List String)
    (dirExists : Bool) :
    ∃ out, cleanup_cache env latest keep_current cache dirExists =
      Except.ok out := by
  unfold cleanup_cache
  cases h : cleanupBody env latest keep_current cache dirExists with
  | ok r => exact ⟨r, rfl⟩
  | error e => exact ⟨(cache, dirExists), rfl⟩

/-! ## Claim C3: extraction backend order -/

/-- C3.  The claimed fallback chain py7zr, external 7z, zipfile is broken:
when py7zr fails and no probe locates a 7z executable, the inner try block
finishes without raising, so the zipfile handler never runs and total
failure is reported after only two attempts — here with an environment in
which the zipfile backend would have succeeded (zipOk is true). -/
theorem zipfile_backend_skipped_when_no_sevenzip :
    extractInstall
        ⟨false, "py7zr cannot read this archive", fun _ => false, 2, true,
         [(["data.bin"], 7)]⟩
        ["game"] [(["game", "Makeplace.exe"], 1)] =
      ([(["game", "Makeplace.exe"], 1)],
       [Backend.py7zr, Backend.sevenzip], false) ∧
    Backend.zipfile ∉ [Backend.py7zr, Backend.sevenzip] := by
  constructor
  · rfl
  · decide

/-! ## Claim C6: a cache hit skips the network download -/

/-- C6.  Whenever the deterministic cache file for (version, asset name)
already exists in the cache, the pipeline does not invoke the download step
and proceeds directly to installation (updater.py lines 504-516). -/
theorem cache_hit_skips_download (env : PipeEnv) (st : PState)
    (h : st.cache.contains (cacheFileName env.latestVersion env.downloadUrl)
      = true) :
    (download_and_install env st).2.2.downloadInvoked = false ∧
    (download_and_install env st).2.2.installInvoked = true := by
  unfold download_and_install
  rw [downloadPhase_hit env st h]
  dsimp only
  rw [installPhase_trace]
  exact ⟨rfl, rfl⟩

/-- Witness for C6: a state whose cache already holds v2.3.0_pkg.7z. -/
theorem cache_hit_skips_download_witness :
    (["v2.3.0_pkg.7z"] : List String).contains
      (cacheFileName "2.3.0" "https://host/pkg.7z") = true ∧
    (download_and_install
        ⟨⟨["game"], []⟩, "2.3.0", "https://host/pkg.7z",
         ⟨[100], none, 100, false⟩,
         ⟨true, "", fun _ => false, 0, false, [(["data.bin"], 7)]⟩,
         ⟨fun _ => false, false, false⟩, ⟨fun _ => false, false, false⟩⟩
        ⟨["v2.3.0_pkg.7z"], true, [(["game", "Makeplace.exe"], 1)], "1.0.0"⟩
      ).2.2.downloadInvoked = false :=
  ⟨by decide,
   (cache_hit_skips_download _ _ (by decide)).1⟩

/-! ## Claim C1: cache contents after a successful run -/

/-- Removing a subtree leaves nothing below its root. -/
theorem subtree_rmtree (fs : FS) (root : FPath) :
    subtree (rmtree fs root) root = [] := by
  unfold subtree rmtree
  rw [List.filter_filter]
  have h : ∀ e : FPath × Nat,
      (root.isPrefixOf e.1 && rmKeep root e.1) = false := by
    intro e
    unfold rmKeep
    cases root.isPrefixOf e.1 <;> rfl
  simp [h]

/-- Every exit of install_update — success or exception — removes the
holding area (updater.py lines 720 and 722-726). -/
theorem install_update_clears_backup (cfg : Config) (ee : ExtractEnv)
    (ae : Bool) (fs : FS) :
    subtree (install_update cfg ee ae fs).1 backup_dir = [] := by
  have key : ∀ (X : FS) (r : Except String Unit) (att : List Backend),
      subtree (installResult X r att).1 backup_dir = [] :=
    fun X r att => subtree_rmtree X backup_dir
  unfold install_update
  split
  · exact key _ _ _
  · split
    · exact key _ _ _
    · split
      · exact key _ _ _
      · dsimp only
        split
        · split
          · exact key _ _ _
          · exact key _ _ _
        · exact key _ _ _

/-- Pruning with keep_current never removes the cache directory. -/
theorem cleanup_cache_keep_preserves_dir (envc : CleanupEnv) (latest : String)
    (cache : List String) :
    ∃ r, cleanup_cache envc latest true cache true = Except.ok (r, true) := by
  unfold cleanup_cache cleanupBody
  cases hI : envc.iterFails with
  | false =>
    refine ⟨cache.filter (fun f =>
      (true && strStartsWith f ("v" ++ latest ++ "_")) || envc.unlinkFails f),
      ?_⟩
    simp [hI]
  | true => exact ⟨cache, by simp [hI]⟩

/-- Pruning without keep_current and with no filesystem failure removes
every cached file and then the directory itself. -/
theorem cleanup_cache_nokeep_removes_all (envc : CleanupEnv) (latest : String)
    (cache : List String)
    (hunlink : ∀ f, envc.unlinkFails f = false)
    (hiter : envc.iterFails = false) (hrmdir : envc.rmdirFails = false) :
    cleanup_cache envc latest false cache true = Except.ok ([], false) := by
  unfold cleanup_cache cleanupBody
  simp [hiter, hrmdir, hunlink]

/-- The success tail leaves an empty cache and removes the cache directory
when the final pruning hits no filesystem failure. -/
theorem finishSuccess_empties (env : PipeEnv) (b : Bool) (att : List Backend)
    (st2 : PState) (hdir : st2.cacheDirExists = true)
    (hunlink : ∀ f, env.cleanupB.unlinkFails f = false)
    (hiter : env.cleanupB.iterFails = false)
    (hrmdir : env.cleanupB.rmdirFails = false) :
    (finishSuccess env b att st2).1.cache = [] ∧
    (finishSuccess env b att st2).1.cacheDirExists = false := by
  unfold finishSuccess
  dsimp only
  rw [hdir]
  obtain ⟨r, hr⟩ :=
    cleanup_cache_keep_preserves_dir env.cleanupA env.latestVersion st2.cache
  rw [hr]
  dsimp only
  rw [cleanup_cache_nokeep_removes_all env.cleanupB env.latestVersion r
    hunlink hiter hrmdir]
  exact ⟨rfl, rfl⟩

/-- A completed installation stage ends with an empty cache and no cache
directory, when the completion pruning hits no filesystem failure. -/
theorem installPhase_completed_empties (env : PipeEnv) (cn : String) (b : Bool)
    (st1 : PState) (hdir : st1.cacheDirExists = true)
    (hunlink : ∀ f, env.cleanupB.unlinkFails f = false)
    (hiter : env.cleanupB.iterFails = false)
    (hrmdir : env.cleanupB.rmdirFails = false)
    (hres : (installPhase env cn b st1).2.1 = RunResult.completed) :
    (installPhase env cn b st1).1.cache = [] ∧
    (installPhase env cn b st1).1.cacheDirExists = false := by
  unfold installPhase at hres ⊢
  dsimp only at hres ⊢
  cases hI : (install_update env.cfg env.ee (st1.cache.contains cn)
      st1.fs).2.1 with
  | error m =>
    rw [hI] at hres
    simp at hres
  | ok u =>
    dsimp only
    exact finishSuccess_empties env b _ _ hdir hunlink hiter hrmdir

/-- C1 counterexample.  A run that completes successfully after installing
version 2.3.0 from an already-cached archive does not leave exactly the
entry for 2.3.0 in the cache: update_complete prunes with keep_current
false (line 742), so the cache ends empty and the directory is removed. -/
theorem cache_not_single_entry_after_success :
    (download_and_install
        ⟨⟨["game"], []⟩, "2.3.0", "https://host/pkg.7z",
         ⟨[100], none, 100, false⟩,
         ⟨true, "", fun _ => false, 0, false, [(["data.bin"], 7)]⟩,
         ⟨fun _ => false, false, false⟩, ⟨fun _ => false, false, false⟩⟩
        ⟨["v1.0.0_pkg.7z", "v2.3.0_pkg.7z"], true,
         [(["game", "Makeplace.exe"], 1)], "1.0.0"⟩).2.1 =
      RunResult.completed ∧
    (download_and_install
        ⟨⟨["game"], []⟩, "2.3.0", "https://host/pkg.7z",
         ⟨[100], none, 100, false⟩,
         ⟨true, "", fun _ => false, 0, false, [(["data.bin"], 7)]⟩,
         ⟨fun _ => false, false, false⟩, ⟨fun _ => false, false, false⟩⟩
        ⟨["v1.0.0_pkg.7z", "v2.3.0_pkg.7z"], true,
         [(["game", "Makeplace.exe"], 1)], "1.0.0"⟩).1.cache = [] ∧
    (download_and_install
        ⟨⟨["game"], []⟩, "2.3.0", "https://host/pkg.7z",
         ⟨[100], none, 100, false⟩,
         ⟨true, "", fun _ => false, 0, false, [(["data.bin"], 7)]⟩,
         ⟨fun _ => false, false, false⟩, ⟨fun _ => false, false, false⟩⟩
        ⟨["v1.0.0_pkg.7z", "v2.3.0_pkg.7z"], true,
         [(["game", "Makeplace.exe"], 1)], "1.0.0"⟩).1.cacheDirExists
      = false := by
  exact ⟨by decide, by decide, by decide⟩

/-- C1 (amended).  After every successful run the cache retains nothing at
all — not even the current version's entry: download_and_install first
prunes keeping the current version (line 524), but the scheduled
update_complete then prunes with keep_current false (line 742), deleting
every entry and, when no delete fails, removing the cache directory. -/
theorem completed_run_empties_cache (env : PipeEnv) (st : PState)
    (hres : (download_and_install env st).2.1 = RunResult.completed)
    (hunlink : ∀ f, env.cleanupB.unlinkFails f = false)
    (hiter : env.cleanupB.iterFails = false)
    (hrmdir : env.cleanupB.rmdirFails = false) :
    (download_and_install env st).1.cache = [] ∧
    (download_and_install env st).1.cacheDirExists = false := by
  unfold download_and_install at hres ⊢
  dsimp only at hres ⊢
  cases hd : (downloadPhase env st).2.1 with
  | some m =>
    rw [hd] at hres
    simp at hres
  | none =>
    rw [hd] at hres
    dsimp only at hres ⊢
    exact installPhase_completed_empties env _ _ _
      (downloadPhase_dirExists env st) hunlink hiter hrmdir hres

/-- Witness for C1: the counterexample environment satisfies the amended
claim's hypotheses and its conclusion. -/
theorem completed_run_empties_cache_witness :
    (download_and_install
        ⟨⟨["base"], []⟩, "2.3.0", "https://host/pkg.7z",
         ⟨[100], none, 100, false⟩,
         ⟨true, "", fun _ => false, 0, false, [(["data.bin"], 7)]⟩,
         ⟨fun _ => false, false, false⟩, ⟨fun _ => false, false, false⟩⟩
        ⟨["v2.3.0_pkg.7z"], true, [(["base", "Makeplace.exe"], 1)],
         "1.0.0"⟩).2.1 = RunResult.completed ∧
    (download_and_install
        ⟨⟨["base"], []⟩, "2.3.0", "https://host/pkg.7z",
         ⟨[100], none, 100, false⟩,
         ⟨true, "", fun _ => false, 0, false, [(["data.bin"], 7)]⟩,
         ⟨fun _ => false, false, false⟩, ⟨fun _ => false, false, false⟩⟩
        ⟨["v2.3.0_pkg.7z"], true, [(["base", "Makeplace.exe"], 1)],
         "1.0.0"⟩).1.cache = [] :=
  ⟨by decide,
   (completed_run_empties_cache
      ⟨⟨["base"], []⟩, "2.3.0", "https://host/pkg.7z",
       ⟨[100], none, 100, false⟩,
       ⟨true, "", fun _ => false, 0, false, [(["data.bin"], 7)]⟩,
       ⟨fun _ => false, false, false⟩, ⟨fun _ => false, false, false⟩⟩
      ⟨["v2.3.0_pkg.7z"], true, [(["base", "Makeplace.exe"], 1)], "1.0.0"⟩
      (by decide) (fun f => rfl) rfl rfl).1⟩

/-! ## Claim C9: what a failed run leaves behind -/

/-- A failing installation stage keeps the cache untouched and, because
the except-handler of install_update removes the holding area, leaves
nothing under temp_backup. -/
theorem installPhase_failed_state (env : PipeEnv) (cn : String) (b : Bool)
    (st1 : PState) (m : String)
    (hres : (installPhase env cn b st1).2.1 = RunResult.failed m) :
    (installPhase env cn b st1).1.cache = st1.cache ∧
    subtree (installPhase env cn b st1).1.fs backup_dir = [] := by
  unfold installPhase at hres ⊢
  dsimp only at hres ⊢
  cases hI : (install_update env.cfg env.ee (st1.cache.contains cn)
      st1.fs).2.1 with
  | error m2 =>
    dsimp only
    exact ⟨rfl, install_update_clears_backup _ _ _ _⟩
  | ok u =>
    rw [hI] at hres
    dsimp only at hres
    rw [finishSuccess_result] at hres
    simp at hres

/-- C9 counterexample.  A failed run does not retain the holding-area
contents: with a file left under temp_backup before the run (exactly what
the claim says a failed run leaves for inspection) and an extraction that
fails on all attempted backends, the run fails and the holding area ends
empty — install_update's except-handler deletes it (lines 722-726). -/
theorem holding_area_deleted_on_failure :
    (download_and_install
        ⟨⟨["game"], []⟩, "2.3.0", "https://host/pkg.7z",
         ⟨[100], none, 100, false⟩,
         ⟨false, "cannot read archive", fun p => p == "7z", 2, false,
          [(["data.bin"], 7)]⟩,
         ⟨fun _ => false, false, false⟩, ⟨fun _ => false, false, false⟩⟩
        ⟨["v1.0.0_pkg.7z"], true,
         [(["game", "Makeplace.exe"], 1), (["temp_backup", "old"], 5)],
         "1.0.0"⟩).2.1 ≠ RunResult.completed ∧
    subtree
      [(["game", "Makeplace.exe"], 1), (["temp_backup", "old"], 5)]
      backup_dir = [(["old"], 5)] ∧
    subtree
      (download_and_install
        ⟨⟨["game"], []⟩, "2.3.0", "https://host/pkg.7z",
         ⟨[100], none, 100, false⟩,
         ⟨false, "cannot read archive", fun p => p == "7z", 2, false,
          [(["data.bin"], 7)]⟩,
         ⟨fun _ => false, false, false⟩, ⟨fun _ => false, false, false⟩⟩
        ⟨["v1.0.0_pkg.7z"], true,
         [(["game", "Makeplace.exe"], 1), (["temp_backup", "old"], 5)],
         "1.0.0"⟩).1.fs backup_dir = [] := by
  exact ⟨by decide, by decide, by decide⟩

/-- C9 (amended).  A run that ends failed retains every cache entry that
existed before the run (a fully downloaded archive from this run is kept
too; a partial one was already deleted by download_file), but when the
failure arose during installation the backup holding area has been
deleted, not retained. -/
theorem failed_run_retains_cache_deletes_holding_area (env : PipeEnv)
    (st : PState) (m : String)
    (hres : (download_and_install env st).2.1 = RunResult.failed m) :
    (∀ f ∈ st.cache, f ∈ (download_and_install env st).1.cache) ∧
    ((download_and_install env st).2.2.installInvoked = true →
      subtree (download_and_install env st).1.fs backup_dir = []) := by
  unfold download_and_install at hres ⊢
  dsimp only at hres ⊢
  cases hd : (downloadPhase env st).2.1 with
  | some m2 =>
    dsimp only
    refine ⟨fun f hf => downloadPhase_cache_mem env st f hf, fun hI => ?_⟩
    simp at hI
  | none =>
    rw [hd] at hres
    dsimp only at hres ⊢
    have h2 := installPhase_failed_state env
      (cacheFileName env.latestVersion env.downloadUrl)
      ((downloadPhase env st).2.2) ((downloadPhase env st).1) m hres
    refine ⟨fun f hf => ?_, fun _ => h2.2⟩
    rw [h2.1]
    exact downloadPhase_cache_mem env st f hf

/-- Witness for C9: a download failure (size mismatch) — the pre-existing
cache entry survives the failed run. -/
theorem failed_run_retains_cache_witness :
    (download_and_install
        ⟨⟨["game"], []⟩, "2.3.0", "https://host/pkg.7z",
         ⟨[100], none, 999, false⟩,
         ⟨true, "", fun _ => false, 0, false, [(["data.bin"], 7)]⟩,
         ⟨fun _ => false, false, false⟩, ⟨fun _ => false, false, false⟩⟩
        ⟨["v1.0.0_pkg.7z"], true, [(["game", "Makeplace.exe"], 1)],
         "1.0.0"⟩).2.1 =
      RunResult.failed
        "Update failed: Download failed: Download incomplete" ∧
    "v1.0.0_pkg.7z" ∈
      (download_and_install
        ⟨⟨["game"], []⟩, "2.3.0", "https://host/pkg.7z",
         ⟨[100], none, 999, false⟩,
         ⟨true, "", fun _ => false, 0, false, [(["data.bin"], 7)]⟩,
         ⟨fun _ => false, false, false⟩, ⟨fun _ => false, false, false⟩⟩
        ⟨["v1.0.0_pkg.7z"], true, [(["game", "Makeplace.exe"], 1)],
         "1.0.0"⟩).1.cache :=
  ⟨by decide,
   (failed_run_retains_cache_deletes_holding_area
      ⟨⟨["game"], []⟩, "2.3.0", "https://host/pkg.7z",
       ⟨[100], none, 999, false⟩,
       ⟨true, "", fun _ => false, 0, false, [(["data.bin"], 7)]⟩,
       ⟨fun _ => false, false, false⟩, ⟨fun _ => false, false, false⟩⟩
      ⟨["v1.0.0_pkg.7z"], true, [(["game", "Makeplace.exe"], 1)], "1.0.0"⟩
      "Update failed: Download failed: Download incomplete"
      (by decide)).1 "v1.0.0_pkg.7z" (by decide)⟩

/-! ## Claim C7: a newer version without a matching asset -/

/-- C7 counterexample.  A feed advertising the newer version 2.0.0 with no
.7z asset does not produce a failure outcome distinct from UpToDate: the
check reports updateAvailable (exactly as it would with an asset), records
no download url, and the later start_update call silently does nothing. -/
theorem missing_asset_reports_update_available :
    checkUpdateOutcome ("1.0.0") ⟨"v2.0.0", [⟨"pkg.zip", "u"⟩]⟩ =
      (CheckOutcome.updateAvailable, none) ∧
    start_update true none = false := by
  exact ⟨by decide, rfl⟩

/-- C7 (amended).  When the advertised version is strictly newer but no
asset name ends in .7z, the check still reports updateAvailable with no
recorded download url — there is no MissingAssetError outcome — and
start_update silently returns without starting anything (lines 481-482). -/
theorem missing_asset_yields_available_and_silent_start
    (currentVersion : String) (rel : Release)
    (hnew : update_ui_after_check currentVersion (stripLeadingV rel.tag_name)
      = CheckOutcome.updateAvailable)
    (hnoasset : rel.assets.all (fun a => !(strEndsWith a.name (".7z"))) = true) :
    checkUpdateOutcome currentVersion rel =
      (CheckOutcome.updateAvailable, none) ∧
    start_update true (findAsset rel.assets) = false := by
  have hfind : findAsset rel.assets = none := by
    have h2 : rel.assets.find? (fun a => strEndsWith a.name (".7z")) = none := by
      rw [List.find?_eq_none]
      intro x hx
      have := List.all_eq_true.mp hnoasset x hx
      simp only [Bool.not_eq_true'] at this
      simp [this]
    simp [findAsset, h2]
  refine ⟨?_, ?_⟩
  · simp [checkUpdateOutcome, check_for_updates, hfind, hnew]
  · simp [start_update, hfind]

/-- Witness for C7: local version 1.0.0, feed tag v2.0.0, single asset
pkg.zip. -/
theorem missing_asset_yields_available_and_silent_start_witness :
    update_ui_after_check ("1.0.0")
      (stripLeadingV (Release.tag_name ⟨"v2.0.0", [⟨"pkg.zip", "u"⟩]⟩))
      = CheckOutcome.updateAvailable ∧
    checkUpdateOutcome ("1.0.0") ⟨"v2.0.0", [⟨"pkg.zip", "u"⟩]⟩ =
      (CheckOutcome.updateAvailable, none) :=
  ⟨by decide,
   (missing_asset_yields_available_and_silent_start ("1.0.0")
      ⟨"v2.0.0", [⟨"pkg.zip", "u"⟩]⟩ (by decide) (by decide)).1⟩

/-! ## Claim C2: version comparison against semver -/

/-- C2 counterexample.  packaging orders local-version labels above the
bare release, while semver says build metadata is ignored for precedence:
with local version 1.0.0 and feed tag v1.0.0+build the check reports an
update available although the remote version is not strictly greater under
semantic-version ordering. -/
theorem version_check_differs_from_semver :
    update_ui_after_check ("1.0.0") (stripLeadingV ("v1.0.0+build")) =
      CheckOutcome.updateAvailable ∧
    semverNewer ("1.0.0+build") ("1.0.0") = some false := by
  exact ⟨by decide, by decide⟩

/-- For releases of equal length, comparing after removal of trailing zeros
agrees with direct lexicographic comparison. -/
theorem lexNat_relKey (u v : List Nat) (h : u.length = v.length) :
    lexNat (relKey u) (relKey v) = lexNat u v := by
  induction u generalizing v with
  | nil =>
    cases v with
    | nil => rfl
    | cons y ys => simp at h
  | cons x xs ih =>
    cases v with
    | nil => simp at h
    | cons y ys =>
      have hlen : xs.length = ys.length := by simpa using h
      have IH := ih ys hlen
      cases h1 : relKey xs with
      | nil =>
        cases h2 : relKey ys with
        | nil =>
          rw [h1, h2] at IH
          by_cases hx : x = 0 <;> by_cases hy : y = 0
          · subst hx; subst hy
            simp [relKey, h1, h2, lexNat, ← IH,
              show compare 0 0 = Ordering.eq from rfl]
          · subst hx
            have hc : compare 0 y = Ordering.lt :=
              Nat.compare_eq_lt.mpr (Nat.pos_of_ne_zero hy)
            simp [relKey, h1, h2, lexNat, hy, hc]
          · subst hy
            have hc : compare x 0 = Ordering.gt :=
              Nat.compare_eq_gt.mpr (Nat.pos_of_ne_zero hx)
            simp [relKey, h1, h2, lexNat, hx, hc]
          · cases hc : compare x y <;>
              simp [relKey, h1, h2, lexNat, hx, hy, hc, ← IH]
        | cons r2 rs2 =>
          rw [h1, h2] at IH
          by_cases hx : x = 0
          · subst hx
            rcases Nat.eq_zero_or_pos y with hy | hy
            · subst hy
              simp [relKey, h1, h2, lexNat, ← IH,
                show compare 0 0 = Ordering.eq from rfl]
            · have hc : compare 0 y = Ordering.lt := Nat.compare_eq_lt.mpr hy
              simp [relKey, h1, h2, lexNat, hc]
          · cases hc : compare x y <;>
              simp [relKey, h1, h2, lexNat, hx, hc, ← IH]
      | cons r1 rs1 =>
        cases h2 : relKey ys with
        | nil =>
          rw [h1, h2] at IH
          by_cases hy : y = 0
          · subst hy
            rcases Nat.eq_zero_or_pos x with hx | hx
            · subst hx
              simp [relKey, h1, h2, lexNat, ← IH,
                show compare 0 0 = Ordering.eq from rfl]
            · have hc : compare x 0 = Ordering.gt := Nat.compare_eq_gt.mpr hx
              simp [relKey, h1, h2, lexNat, hc]
          · cases hc : compare x y <;>
              simp [relKey, h1, h2, lexNat, hy, hc, ← IH]
        | cons r2 rs2 =>
          rw [h1, h2] at IH
          cases hc : compare x y <;> simp [relKey, h1, h2, lexNat, hc, ← IH]

/-- On plain releases the packaging comparison is the release comparison. -/
theorem pvCompare_plain (r1 r2 : List Nat) :
    pvCompare ⟨r1, none, none⟩ ⟨r2, none, none⟩ =
      lexNat (relKey r1) (relKey r2) := by
  cases h : lexNat (relKey r1) (relKey r2) <;>
    simp [pvCompare, cmpPre, cmpLocal, h]

/-- On versions without pre-release the semver precedence is the
lexicographic comparison of the numeric triple. -/
theorem svCompare_release (a b c a2 b2 c2 : Nat) :
    svCompare ⟨a, b, c, []⟩ ⟨a2, b2, c2, []⟩ =
      lexNat [a, b, c] [a2, b2, c2] := by
  cases h1 : compare a a2 <;> cases h2 : compare b b2 <;>
    cases h3 : compare c c2 <;> simp [svCompare, lexNat, h1, h2, h3]

/-- C2 (amended).  Restricted to plain dotted numeric versions of three
components — no pre-release, no build metadata or local segment, where
packaging (PEP 440) ordering and semver precedence agree — the claim
holds: after stripping leading v characters from the feed tag, the check
reports an update available exactly when the remote version is strictly
greater under semantic-version ordering, and reports up to date otherwise.
Outside this restriction the orderings differ (see the counterexample with
build metadata). -/
theorem version_check_matches_semver_on_plain_releases
    (cur tag : String) (a b c a2 b2 c2 : Nat)
    (hp1 : pep440Parse cur = some ⟨[a, b, c], none, none⟩)
    (hp2 : pep440Parse (stripLeadingV tag) = some ⟨[a2, b2, c2], none, none⟩)
    (hs1 : semverParse cur = some ⟨a, b, c, []⟩)
    (hs2 : semverParse (stripLeadingV tag) = some ⟨a2, b2, c2, []⟩) :
    update_ui_after_check cur (stripLeadingV tag) =
      (if svCompare ⟨a, b, c, []⟩ ⟨a2, b2, c2, []⟩ = Ordering.lt
       then CheckOutcome.updateAvailable else CheckOutcome.upToDate) := by
  unfold update_ui_after_check
  rw [hp1, hp2]
  dsimp only
  rw [pvCompare_plain, lexNat_relKey _ _ (by simp), svCompare_release]

/-- Witness for C2: local 1.0.0 against feed tag v1.2.0; both parse as
plain releases and the check agrees with semver (update available). -/
theorem version_check_matches_semver_on_plain_releases_witness :
    pep440Parse ("1.0.0") = some ⟨[1, 0, 0], none, none⟩ ∧
    semverParse ("1.0.0") = some ⟨1, 0, 0, []⟩ ∧
    update_ui_after_check ("1.0.0") (stripLeadingV ("v1.2.0")) =
      (if svCompare ⟨1, 0, 0, []⟩ ⟨1, 2, 0, []⟩ = Ordering.lt
       then CheckOutcome.updateAvailable else CheckOutcome.upToDate) :=
  ⟨by decide, by decide,
   version_check_matches_semver_on_plain_releases ("1.0.0") ("v1.2.0")
     1 0 0 1 2 0 (by decide) (by decide) (by decide) (by decide)⟩

/-! ### Lookup lemmas for the filesystem model -/

/-- Lookup across an append: the left part wins. -/
theorem fileAt_append (l1 l2 : FS) (p : FPath) :
    fileAt (l1 ++ l2) p =
      match fileAt l1 p with
      | some c => some c
      | none => fileAt l2 p := by
  induction l1 with
  | nil => rfl
  | cons e rest ih =>
    by_cases he : (e.1 == p) = true
    · simp [fileAt, he]
    · have he2 : (e.1 == p) = false := by simpa using he
      simp only [List.cons_append, fileAt, he2, Bool.false_eq_true, if_false]
      exact ih

/-- Lookup through a filter whose condition depends only on the path. -/
theorem fileAt_filter_key (fs : FS) (kp : FPath → Bool) (p : FPath) :
    fileAt (fs.filter (fun e => kp e.1)) p =
      if kp p then fileAt fs p else none := by
  induction fs with
  | nil =>
    simp only [List.filter_nil]
    split <;> rfl
  | cons e rest ih =>
    obtain ⟨q, c⟩ := e
    by_cases hq : q = p
    · subst hq
      by_cases hk : kp q
      · simp [fileAt, List.filter_cons, hk]
      · have hk2 : kp q = false := by simpa using hk
        simp only [List.filter_cons, hk2, Bool.false_eq_true, if_false]
        rw [ih, hk2]
        rfl
    · have hbq : (q == p) = false := by simp [hq]
      by_cases hk : kp q
      · simp only [List.filter_cons, hk, if_true]
        simp only [fileAt, hbq, Bool.false_eq_true, if_false]
        exact ih
      · have hk2 : kp q = false := by simpa using hk
        simp only [List.filter_cons, hk2, Bool.false_eq_true, if_false]
        rw [ih]
        simp only [fileAt, hbq, Bool.false_eq_true, if_false]

/-- Lookup in a list whose paths were all shifted below dst. -/
theorem fileAt_shift (l : FS) (dst p : FPath) :
    fileAt (l.map (fun e => (dst ++ e.1, e.2))) p =
      if dst <+: p then fileAt l (p.drop dst.length) else none := by
  induction l with
  | nil =>
    simp only [List.map_nil]
    split <;> rfl
  | cons e rest ih =>
    obtain ⟨q, c⟩ := e
    simp only [List.map_cons]
    by_cases he : dst ++ q = p
    · have h1 : (dst ++ q == p) = true := by simp [he]
      have hdp : dst <+: p := he ▸ List.prefix_append dst q
      have hdrop : p.drop dst.length = q := by
        rw [← he, List.drop_left]
      simp [fileAt, h1, hdp, hdrop]
    · have h1 : (dst ++ q == p) = false := by simp [he]
      simp only [fileAt, h1, Bool.false_eq_true, if_false]
      rw [ih]
      by_cases hdp : dst <+: p
      · have hq : (q == p.drop dst.length) = false := by
          have hx : dst ++ p.drop dst.length = p :=
            List.prefix_iff_eq_append.mp hdp
          simp only [beq_eq_false_iff_ne, ne_eq]
          intro hqq
          exact he (by rw [hqq, hx])
        simp [hdp, fileAt, hq]
      · simp [hdp]

/-- Lookup in the subtree below root is lookup at the absolute path. -/
theorem fileAt_subtree (fs : FS) (root rel : FPath) :
    fileAt (subtree fs root) rel = fileAt fs (root ++ rel) := by
  induction fs with
  | nil => rfl
  | cons e rest ih =>
    obtain ⟨q, c⟩ := e
    unfold subtree at ih ⊢
    by_cases hpre : root.isPrefixOf q
    · have hpre2 : root <+: q := List.isPrefixOf_iff_prefix.mp hpre
      have hq : root ++ q.drop root.length = q :=
        List.prefix_iff_eq_append.mp hpre2
      simp only [List.filter_cons, hpre, if_true, List.map_cons]
      by_cases he : q.drop root.length = rel
      · have h1 : (q.drop root.length == rel) = true := by simp [he]
        have h2 : (q == root ++ rel) = true := by
          simp only [beq_iff_eq]
          rw [← he, hq]
        simp [fileAt, h1, h2]
      · have h1 : (q.drop root.length == rel) = false := by simp [he]
        have h2 : (q == root ++ rel) = false := by
          simp only [beq_eq_false_iff_ne, ne_eq]
          intro hqq
          exact he (by rw [hqq, List.drop_left])
        simp only [fileAt, h1, h2, Bool.false_eq_true, if_false]
        exact ih
    · have h2 : (q == root ++ rel) = false := by
        simp only [beq_eq_false_iff_ne, ne_eq]
        intro hqq
        exact absurd (List.isPrefixOf_iff_prefix.mpr
          (hqq ▸ List.prefix_append root rel)) (by simp [hpre])
      have hpre3 : root.isPrefixOf q = false := by
        rw [Bool.eq_false_iff]
        exact fun hb => hpre (hb ▸ rfl)
      simp only [List.filter_cons, hpre3, Bool.false_eq_true, if_false]
      simp only [fileAt, h2, Bool.false_eq_true, if_false]
      exact ih

/-- The central lookup law for copyInto: below dst the copied source file
wins when it exists, everything else is unchanged. -/
theorem fileAt_copyInto (fs : FS) (src dst p : FPath) :
    fileAt (copyInto fs src dst) p =
      if dst <+: p ∧ isFile fs (src ++ p.drop dst.length) = true then
        fileAt fs (src ++ p.drop dst.length)
      else fileAt fs p := by
  unfold copyInto
  rw [fileAt_append, fileAt_shift, fileAt_subtree, fileAt_filter_key]
  by_cases hdp : dst <+: p
  · by_cases hf : isFile fs (src ++ p.drop dst.length) = true
    · rw [isFile] at hf
      obtain ⟨c, hc⟩ := Option.isSome_iff_exists.mp hf
      simp [hdp, hc, isFile, copyKeep]
    · have hnone : fileAt fs (src ++ p.drop dst.length) = none := by
        rw [isFile] at hf
        exact Option.not_isSome_iff_eq_none.mp (by simpa using hf)
      have hkeep : copyKeep fs src dst p = true := by
        unfold copyKeep
        simp [hf]
      simp [hdp, hnone, hkeep, hf]
  · have hkeep : copyKeep fs src dst p = true := by
      unfold copyKeep
      have : dst.isPrefixOf p = false := by
        rw [← Bool.not_eq_true]
        intro hb
        exact hdp (List.isPrefixOf_iff_prefix.mp hb)
      simp [this]
    simp [hdp, hkeep]

/-- Lookup after rmtree: gone below the root, unchanged elsewhere. -/
theorem fileAt_rmtree (fs : FS) (root p : FPath) :
    fileAt (rmtree fs root) p =
      if root <+: p then none else fileAt fs p := by
  unfold rmtree
  rw [fileAt_filter_key fs (rmKeep root) p]
  by_cases h : root <+: p
  · have hb : root.isPrefixOf p = true := List.isPrefixOf_iff_prefix.mpr h
    simp [h, rmKeep, hb]
  · have hb : root.isPrefixOf p = false := by
      rw [Bool.eq_false_iff]
      intro hx
      exact h (List.isPrefixOf_iff_prefix.mp hx)
    simp [h, rmKeep, hb]

/-! ## Claim C4: state and error report after total extraction failure -/

/-- The installation path never reaches under temp_backup when it is
nonempty and does not itself start with that component. -/
theorem backupdir_unreachable (ir q : FPath) (hne : ir ≠ [])
    (hhead : ir.head? ≠ some "temp_backup") :
    ¬ backup_dir <+: ir ++ q := by
  intro h
  obtain ⟨t, ht⟩ := h
  cases ir with
  | nil => exact hne rfl
  | cons a as =>
    have hh : some "temp_backup" = some a := by
      have := congrArg List.head? ht
      simpa [backup_dir] using this
    exact hhead (by rw [show a = "temp_backup" from (Option.some.injEq _ _ ▸ hh).symm]; rfl)

/-- A failing extraction writes nothing: the filesystem is returned as it
was (each backend in the model is atomic with respect to its output). -/
theorem extractInstall_fail_fs (ee : ExtractEnv) (root : FPath) (fs : FS)
    (h : (extractInstall ee root fs).2.2 = false) :
    (extractInstall ee root fs).1 = fs := by
  by_cases h7 : ee.py7zrOk = true
  · exfalso
    simp [extractInstall, h7] at h
  · have h7f : ee.py7zrOk = false := by simpa using h7
    cases hfind : seven_zip_paths.find? ee.runReturns with
    | none => simp [extractInstall, h7f, hfind]
    | some x =>
      by_cases hz : (ee.sevenZipRet == 0) = true
      · exfalso
        simp [extractInstall, h7f, hfind, hz] at h
      · have hzf : (ee.sevenZipRet == 0) = false := by simpa using hz
        by_cases hzip : ee.zipOk = true
        · exfalso
          simp [extractInstall, h7f, hfind, hzf, hzip] at h
        · have hzipf : ee.zipOk = false := by simpa using hzip
          simp [extractInstall, h7f, hfind, hzf, hzipf]

/-- The backup loop only writes below the backup root: every other path
keeps its content. -/
theorem backupList_fileAt_outside (ir br : FPath) (folders : List FPath)
    (fs fs1 : FS) (hok : backupList ir br fs folders = (fs1, none))
    (p : FPath) (hp : ¬ br <+: p) :
    fileAt fs1 p = fileAt fs p := by
  induction folders generalizing fs with
  | nil =>
    unfold backupList at hok
    cases hok
    rfl
  | cons f rest ih =>
    unfold backupList at hok
    cases hstep : backupStep ir br fs f with
    | ok fs2 =>
      rw [hstep] at hok
      rw [ih fs2 hok]
      unfold backupStep at hstep
      dsimp only at hstep
      split at hstep
      · unfold copytreeMerge at hstep
        split at hstep
        · exact absurd hstep (by simp)
        · split at hstep
          · exact absurd hstep (by simp)
          · have hfs2 : fs2 = copyInto fs (ir ++ f) (br ++ f) := by
              injection hstep with h
              exact h.symm
            subst hfs2
            rw [fileAt_copyInto]
            have hnd : ¬ (br ++ f) <+: p := fun hpp =>
              hp ((List.prefix_append br f).trans hpp)
            rw [if_neg (fun hc => hnd hc.1)]
      · injection hstep with h
        rw [← h]
    | error e =>
      rw [hstep] at hok
      exact absurd hok (by simp)

/-- C4 counterexample.  With py7zr failing with a concrete diagnostic, the
7z executable found but exiting nonzero, and zipfile failing too (all
three backends attempted), the reported error is the fixed
unsupported-format message: it does not contain the py7zr backend's
failure reason, let alone every attempted backend's. -/
theorem extraction_error_omits_backend_reasons :
    (install_update ⟨["game"], []⟩
        ⟨false, "py7zr cannot read this archive", fun p => p == "7z", 2,
         false, []⟩
        true [(["game", "Makeplace.exe"], 1)]).2.1 =
      Except.error ("Installation failed: Failed to extract archive. The file uses an unsupported compression format (likely BCJ2 filter). Please install 7-Zip from https://www.7-zip.org/ and try again.") ∧
    (install_update ⟨["game"], []⟩
        ⟨false, "py7zr cannot read this archive", fun p => p == "7z", 2,
         false, []⟩
        true [(["game", "Makeplace.exe"], 1)]).2.2 =
      [Backend.py7zr, Backend.sevenzip, Backend.zipfile] ∧
    strContains ("Installation failed: Failed to extract archive. The file uses an unsupported compression format (likely BCJ2 filter). Please install 7-Zip from https://www.7-zip.org/ and try again.")
      ("py7zr cannot read this archive") = false := by
  exact ⟨rfl, rfl, by decide⟩

/-- C4 (amended).  When every attempted extraction backend fails, the
preserved paths — indeed every path under the installation directory — are
unchanged (the model treats a failing backend as writing nothing, the
claim's own reading), and the reported error is the fixed
unsupported-format message with a remediation hint, which carries the
py7zr diagnostic only when that diagnostic mentions BCJ2 and never lists
the other backends' failure reasons. -/
theorem install_failure_preserves_paths_and_reports_fixed_error
    (cfg : Config) (ee : ExtractEnv) (fs fs1 : FS)
    (hroot : fsExists fs cfg.installation_path = true)
    (hback : backupList cfg.installation_path backup_dir fs
      cfg.preserve_folders = (fs1, none))
    (hfail : (extractInstall ee cfg.installation_path fs1).2.2 = false)
    (hne : cfg.installation_path ≠ [])
    (hhead : cfg.installation_path.head? ≠ some "temp_backup") :
    (install_update cfg ee true fs).2.1 =
      Except.error ("Installation failed: " ++ extractionErrorMsg ee.py7zrMsg) ∧
    ∀ q, fileAt (install_update cfg ee true fs).1
        (cfg.installation_path ++ q) =
      fileAt fs (cfg.installation_path ++ q) := by
  have hres : install_update cfg ee true fs =
      installResult (extractInstall ee cfg.installation_path fs1).1
        (Except.error ("Installation failed: " ++ extractionErrorMsg ee.py7zrMsg))
        (extractInstall ee cfg.installation_path fs1).2.1 := by
    unfold install_update
    rw [hroot]
    simp only [Bool.not_true, Bool.false_eq_true, if_false]
    rw [hback]
    dsimp only
    rw [hfail]
    simp only [Bool.false_eq_true, if_false]
  rw [hres]
  refine ⟨rfl, fun q => ?_⟩
  have hX : (extractInstall ee cfg.installation_path fs1).1 = fs1 :=
    extractInstall_fail_fs _ _ _ hfail
  unfold installResult
  dsimp only
  rw [hX, fileAt_rmtree]
  have hnb : ¬ backup_dir <+: cfg.installation_path ++ q :=
    backupdir_unreachable _ _ hne hhead
  rw [if_neg hnb]
  exact backupList_fileAt_outside _ _ _ _ _ hback _ hnb

/-- Witness for C4: one preserved folder, py7zr failing without a BCJ2
diagnostic, 7z found but exiting nonzero, zipfile failing. -/
theorem install_failure_preserves_paths_witness :
    fsExists [(["game", "Makeplace.exe"], 1),
      (["game", "Makeplace", "Save", "s1"], 2)] ["game"] = true ∧
    backupList ["game"] backup_dir
      [(["game", "Makeplace.exe"], 1), (["game", "Makeplace", "Save", "s1"], 2)]
      [["Makeplace", "Save"]] =
      ([(["temp_backup", "Makeplace", "Save", "s1"], 2),
        (["game", "Makeplace.exe"], 1),
        (["game", "Makeplace", "Save", "s1"], 2)], none) ∧
    ((install_update ⟨["game"], [["Makeplace", "Save"]]⟩
        ⟨false, "header error", fun p => p == "7z", 2, false, []⟩ true
        [(["game", "Makeplace.exe"], 1),
         (["game", "Makeplace", "Save", "s1"], 2)]).2.1 =
      Except.error ("Installation failed: " ++ extractionErrorMsg "header error") ∧
    ∀ q, fileAt (install_update ⟨["game"], [["Makeplace", "Save"]]⟩
        ⟨false, "header error", fun p => p == "7z", 2, false, []⟩ true
        [(["game", "Makeplace.exe"], 1),
         (["game", "Makeplace", "Save", "s1"], 2)]).1 (["game"] ++ q) =
      fileAt [(["game", "Makeplace.exe"], 1),
        (["game", "Makeplace", "Save", "s1"], 2)] (["game"] ++ q)) :=
  ⟨by decide, by decide,
   install_failure_preserves_paths_and_reports_fixed_error
     ⟨["game"], [["Makeplace", "Save"]]⟩
     ⟨false, "header error", fun p => p == "7z", 2, false, []⟩
     [(["game", "Makeplace.exe"], 1), (["game", "Makeplace", "Save", "s1"], 2)]
     [(["temp_backup", "Makeplace", "Save", "s1"], 2),
      (["game", "Makeplace.exe"], 1), (["game", "Makeplace", "Save", "s1"], 2)]
     (by decide) (by decide) (by decide) (by decide) (by decide)⟩

/-! ## Claim C8: backup followed by restore -/

/-- Two roots that are not prefixes of one another never reach into each
other's subtrees. -/
theorem roots_no_cross {ir br : FPath} (h1 : ¬ ir <+: br) (h2 : ¬ br <+: ir)
    (x y : FPath) : ¬ ir ++ x <+: br ++ y := by
  intro h
  have ha : ir <+: br ++ y := (List.prefix_append ir x).trans h
  rcases List.prefix_or_prefix_of_prefix ha (List.prefix_append br y) with h3 | h3
  · exact h1 h3
  · exact h2 h3

/-- One root is never a prefix of a path below the other root. -/
theorem roots_no_reach {ir br : FPath} (h1 : ¬ ir <+: br) (h2 : ¬ br <+: ir)
    (x : FPath) : ¬ br <+: ir ++ x := by
  intro h
  rcases List.prefix_or_prefix_of_prefix h (List.prefix_append ir x) with h3 | h3
  · exact h2 h3
  · exact h1 h3

/-- A lookup succeeds exactly when an entry at that path is in the list. -/
theorem fileAt_isSome_iff (fs : FS) (p : FPath) :
    (fileAt fs p).isSome = true ↔ ∃ c, (p, c) ∈ fs := by
  induction fs with
  | nil => simp [fileAt]
  | cons e rest ih =>
    obtain ⟨q, c⟩ := e
    by_cases hq : q = p
    · subst hq
      simp [fileAt]
    · have hbq : (q == p) = false := by simp [hq]
      simp only [fileAt, hbq, Bool.false_eq_true, if_false]
      rw [ih]
      constructor
      · rintro ⟨c2, hc2⟩
        exact ⟨c2, List.mem_cons_of_mem _ hc2⟩
      · rintro ⟨c2, hc2⟩
        rcases List.mem_cons.mp hc2 with h | h
        · exact absurd (congrArg Prod.fst h).symm hq
        · exact ⟨c2, h⟩

/-- Existence at a path is existence of a file at some extension of it. -/
theorem fsExists_iff (fs : FS) (p : FPath) :
    fsExists fs p = true ↔ ∃ q, (fileAt fs (p ++ q)).isSome = true := by
  unfold fsExists isDirAt
  constructor
  · intro h
    rcases Bool.or_eq_true .. |>.mp h with h | h
    · exact ⟨[], by rw [List.append_nil]; exact h⟩
    · obtain ⟨e, he, hpe⟩ := List.any_eq_true.mp h
      obtain ⟨hp1, _⟩ := Bool.and_eq_true .. |>.mp hpe
      have hpre2 : p <+: e.1 := List.isPrefixOf_iff_prefix.mp hp1
      refine ⟨e.1.drop p.length, ?_⟩
      rw [List.prefix_iff_eq_append.mp hpre2]
      exact (fileAt_isSome_iff fs e.1).mpr ⟨e.2, he⟩
  · rintro ⟨q, hq⟩
    cases q with
    | nil =>
      have hf : isFile fs p = true := by
        rw [List.append_nil] at hq
        exact hq
      simp [hf]
    | cons a as =>
      obtain ⟨c, hc⟩ := (fileAt_isSome_iff _ _).mp hq
      have hdir : fs.any (fun e => p.isPrefixOf e.1 && e.1 != p) = true := by
        apply List.any_eq_true.mpr
        refine ⟨(p ++ a :: as, c), hc, ?_⟩
        have hx1 : p.isPrefixOf (p ++ a :: as) = true :=
          List.isPrefixOf_iff_prefix.mpr (List.prefix_append _ _)
        have hx2 : ((p ++ a :: as) != p) = true := by
          simp only [bne_iff_ne, ne_eq]
          intro hh
          exact absurd (List.append_right_eq_self.mp hh) (by simp)
        rw [hx1, hx2]
        rfl
      simp [hdir]

/-- Existence transports along pointwise-equal lookups below the path. -/
theorem fsExists_congr (A B : FS) (p : FPath)
    (h : ∀ q, fileAt A (p ++ q) = fileAt B (p ++ q)) :
    fsExists A p = fsExists B p := by
  cases hb : fsExists B p with
  | false =>
    cases ha : fsExists A p with
    | false => rfl
    | true =>
      obtain ⟨q, hq⟩ := (fsExists_iff A p).mp ha
      rw [h q] at hq
      have hbb := (fsExists_iff B p).mpr ⟨q, hq⟩
      rw [hb] at hbb
      exact absurd hbb (by simp)
  | true =>
    obtain ⟨q, hq⟩ := (fsExists_iff B p).mp hb
    rw [← h q] at hq
    exact (fsExists_iff A p).mpr ⟨q, hq⟩

/-- coverB distributes over list append. -/
theorem coverB_append (ir : FPath) (fs0 : FS) (a b : List FPath) (p : FPath) :
    coverB ir fs0 (a ++ b) p = (coverB ir fs0 a p || coverB ir fs0 b p) := by
  unfold coverB
  rw [List.any_append]

/-- coverB of a single folder. -/
theorem coverB_single (ir : FPath) (fs0 : FS) (f p : FPath) :
    coverB ir fs0 [f] p = (f.isPrefixOf p && fsExists fs0 (ir ++ f)) := by
  unfold coverB
  simp

/-- Shifting a prefix under a common root. -/
theorem append_drop_of_prefix {f q : FPath} (h : f <+: q) (ir : FPath) :
    (ir ++ f) ++ (q.drop f.length) = ir ++ q := by
  rw [List.append_assoc, List.prefix_iff_eq_append.mp h]

/-- Dropping a shifted root from a shifted path. -/
theorem drop_double {br f p : FPath} (h : f <+: p) :
    (br ++ p).drop (br ++ f).length = p.drop f.length := by
  conv_lhs => rw [← append_drop_of_prefix h br]
  rw [List.drop_left]

/-- A path that is not a regular file has no content. -/
theorem fileAt_eq_none_of_not_isFile (fs : FS) (p : FPath)
    (h : isFile fs p = false) : fileAt fs p = none := by
  unfold isFile at h
  cases hc : fileAt fs p with
  | none => rfl
  | some c =>
    rw [hc] at h
    exact absurd h (by simp)

/-- Invariant of the backup loop: outside the holding area nothing changes,
and the holding area holds exactly the copies of the processed folders. -/
theorem backupList_spec (ir br : FPath) (h1 : ¬ ir <+: br) (h2 : ¬ br <+: ir)
    (fs0 : FS) :
    ∀ (folders done : List FPath) (cur : FS),
    (∀ p, ¬ br <+: p → fileAt cur p = fileAt fs0 p) →
    (∀ p, fileAt cur (br ++ p) =
      if coverB ir fs0 done p then fileAt fs0 (ir ++ p) else none) →
    (∀ f ∈ folders, isFile fs0 (ir ++ f) = false) →
    (backupList ir br cur folders).2 = none ∧
    (∀ p, ¬ br <+: p →
      fileAt (backupList ir br cur folders).1 p = fileAt fs0 p) ∧
    (∀ p, fileAt (backupList ir br cur folders).1 (br ++ p) =
      if coverB ir fs0 (done ++ folders) p then fileAt fs0 (ir ++ p)
      else none) := by
  intro folders
  induction folders with
  | nil =>
    intro done cur hi hii hf
    refine ⟨rfl, hi, fun p => ?_⟩
    rw [List.append_nil]
    exact hii p
  | cons f rest ih =>
    intro done cur hi hii hf
    have hext : ∀ q, fileAt cur ((ir ++ f) ++ q) = fileAt fs0 ((ir ++ f) ++ q) := by
      intro q
      apply hi
      rw [List.append_assoc]
      exact roots_no_reach h1 h2 (f ++ q)
    have hex : fsExists cur (ir ++ f) = fsExists fs0 (ir ++ f) :=
      fsExists_congr _ _ _ hext
    have hassoc : done ++ f :: rest = (done ++ [f]) ++ rest := by
      rw [List.append_assoc]
      rfl
    unfold backupList backupStep
    dsimp only
    cases hex0 : fsExists fs0 (ir ++ f) with
    | false =>
      rw [hex, hex0, if_neg (by simp)]
      have hcov : ∀ p, coverB ir fs0 (done ++ [f]) p = coverB ir fs0 done p := by
        intro p
        rw [coverB_append, coverB_single, hex0]
        simp
      have hrec := ih (done ++ [f]) cur hi
        (fun p => by rw [hcov p]; exact hii p)
        (fun g hg => hf g (List.mem_cons_of_mem _ hg))
      refine ⟨hrec.1, hrec.2.1, fun p => ?_⟩
      rw [hassoc]
      exact hrec.2.2 p
    | true =>
      rw [hex, hex0, if_pos rfl]
      unfold copytreeMerge
      have hff : isFile fs0 (ir ++ f) = false := hf f (List.mem_cons_self f rest)
      have hffn : fileAt fs0 (ir ++ f) = none :=
        fileAt_eq_none_of_not_isFile _ _ hff
      have hsrc : isFile cur (ir ++ f) = false := by
        unfold isFile
        have hx := hext []
        rw [List.append_nil] at hx
        rw [hx, hffn]
        rfl
      have hdstnone : fileAt cur (br ++ f) = none := by
        rw [hii f]
        split
        · exact hffn
        · rfl
      have hdst : isFile cur (br ++ f) = false := by
        unfold isFile
        rw [hdstnone]
        rfl
      rw [hsrc, if_neg (by simp), hdst, if_neg (by simp)]
      dsimp only
      have hi2 : ∀ p, ¬ br <+: p →
          fileAt (copyInto cur (ir ++ f) (br ++ f)) p = fileAt fs0 p := by
        intro p hp
        rw [fileAt_copyInto,
          if_neg (fun hc => hp ((List.prefix_append br f).trans hc.1))]
        exact hi p hp
      have hii2 : ∀ p, fileAt (copyInto cur (ir ++ f) (br ++ f)) (br ++ p) =
          if coverB ir fs0 (done ++ [f]) p then fileAt fs0 (ir ++ p)
          else none := by
        intro p
        rw [fileAt_copyInto]
        by_cases hfp : f <+: p
        · have hpre : (br ++ f) <+: (br ++ p) :=
            (List.prefix_append_right_inj br).mpr hfp
          have hrel : (br ++ p).drop (br ++ f).length = p.drop f.length :=
            drop_double hfp
          have hsrcpath : (ir ++ f) ++ (br ++ p).drop (br ++ f).length
              = ir ++ p := by
            rw [hrel]
            exact append_drop_of_prefix hfp ir
          have htrans : fileAt cur
              ((ir ++ f) ++ (br ++ p).drop (br ++ f).length)
              = fileAt fs0 (ir ++ p) := by
            rw [hsrcpath]
            exact hi _ (roots_no_reach h1 h2 p)
          have hcovnew : coverB ir fs0 (done ++ [f]) p = true := by
            rw [coverB_append, coverB_single, hex0]
            simp [List.isPrefixOf_iff_prefix.mpr hfp]
          rw [hcovnew]
          by_cases hsf : isFile fs0 (ir ++ p) = true
          · have hisf : isFile cur
                ((ir ++ f) ++ (br ++ p).drop (br ++ f).length) = true := by
              unfold isFile
              rw [htrans]
              exact hsf
            rw [if_pos ⟨hpre, hisf⟩, htrans]
            simp
          · have hsfn : fileAt fs0 (ir ++ p) = none :=
              fileAt_eq_none_of_not_isFile _ _ (by simpa using hsf)
            have hisf : isFile cur
                ((ir ++ f) ++ (br ++ p).drop (br ++ f).length) = false := by
              unfold isFile
              rw [htrans, hsfn]
              rfl
            rw [if_neg (fun hc => by rw [hisf] at hc; exact absurd hc.2 (by simp))]
            rw [hii p, hsfn]
            split <;> simp
        · have hnpre : ¬ (br ++ f) <+: (br ++ p) := fun hc =>
            hfp ((List.prefix_append_right_inj br).mp hc)
          rw [if_neg (fun hc => hnpre hc.1), hii p]
          have hcov : coverB ir fs0 (done ++ [f]) p = coverB ir fs0 done p := by
            rw [coverB_append, coverB_single]
            have hb : f.isPrefixOf p = false := by
              rw [Bool.eq_false_iff]
              intro hx
              exact hfp (List.isPrefixOf_iff_prefix.mp hx)
            simp [hb]
          rw [hcov]
      have hrec := ih (done ++ [f]) (copyInto cur (ir ++ f) (br ++ f)) hi2 hii2
        (fun g hg => hf g (List.mem_cons_of_mem _ hg))
      refine ⟨hrec.1, hrec.2.1, fun p => ?_⟩
      rw [hassoc]
      exact hrec.2.2 p

/-- Invariant of the restore loop: the holding area is read, only the
installation subtree is rewritten, and it is rewritten with the original
content. -/
theorem restoreList_spec (ir br : FPath) (h1 : ¬ ir <+: br) (h2 : ¬ br <+: ir)
    (fs0 fs1 : FS) (folders : List FPath)
    (hB : ∀ p, fileAt fs1 (br ++ p) =
      if coverB ir fs0 folders p then fileAt fs0 (ir ++ p) else none)
    (hdirs : ∀ f ∈ folders, isFile fs0 (ir ++ f) = false) :
    ∀ (rest : List FPath) (cur : FS),
    (∀ f ∈ rest, f ∈ folders) →
    (∀ p, fileAt cur (br ++ p) = fileAt fs1 (br ++ p)) →
    (∀ q, fileAt cur (ir ++ q) = fileAt fs0 (ir ++ q)) →
    (restoreList ir br cur rest).2 = none ∧
    (∀ q, fileAt (restoreList ir br cur rest).1 (ir ++ q) =
      fileAt fs0 (ir ++ q)) := by
  intro rest
  induction rest with
  | nil =>
    intro cur hsub hj hk
    exact ⟨rfl, hk⟩
  | cons f rest2 ih =>
    intro cur hsub hj hk
    have hfin : f ∈ folders := hsub f (List.mem_cons_self f rest2)
    have hff : isFile fs0 (ir ++ f) = false := hdirs f hfin
    have hffn : fileAt fs0 (ir ++ f) = none :=
      fileAt_eq_none_of_not_isFile _ _ hff
    unfold restoreList restoreStep
    dsimp only
    have hjext : ∀ q, fileAt cur ((br ++ f) ++ q) = fileAt fs1 ((br ++ f) ++ q) := by
      intro q
      rw [List.append_assoc]
      exact hj (f ++ q)
    have hex : fsExists cur (br ++ f) = fsExists fs1 (br ++ f) :=
      fsExists_congr _ _ _ hjext
    cases hex1 : fsExists fs1 (br ++ f) with
    | false =>
      rw [hex, hex1, if_neg (by simp)]
      exact ih cur (fun g hg => hsub g (List.mem_cons_of_mem _ hg)) hj hk
    | true =>
      rw [hex, hex1, if_pos rfl]
      have hex0 : fsExists fs0 (ir ++ f) = true := by
        obtain ⟨q, hq⟩ := (fsExists_iff fs1 (br ++ f)).mp hex1
        rw [List.append_assoc, hB (f ++ q)] at hq
        by_cases hcov : coverB ir fs0 folders (f ++ q) = true
        · rw [if_pos hcov] at hq
          apply (fsExists_iff fs0 (ir ++ f)).mpr
          refine ⟨q, ?_⟩
          rw [List.append_assoc]
          exact hq
        · rw [if_neg hcov] at hq
          exact absurd hq (by simp)
      have hdstfile : isFile cur (ir ++ f) = false := by
        unfold isFile
        rw [hk f, hffn]
        rfl
      rw [hdstfile]
      simp only [Bool.and_false, Bool.false_eq_true, if_false]
      unfold copytreeStrict
      have hsrc2 : isFile (rmtree cur (ir ++ f)) (br ++ f) = false := by
        unfold isFile
        rw [fileAt_rmtree, if_neg (roots_no_cross h1 h2 f f), hj f, hB f]
        rw [hffn]
        split <;> rfl
      have hdstex : fsExists (rmtree cur (ir ++ f)) (ir ++ f) = false := by
        cases hcx : fsExists (rmtree cur (ir ++ f)) (ir ++ f) with
        | false => rfl
        | true =>
          obtain ⟨q, hq⟩ := (fsExists_iff _ _).mp hcx
          rw [fileAt_rmtree, if_pos (List.prefix_append _ _)] at hq
          exact absurd hq (by simp)
      rw [hsrc2, if_neg (by simp), hdstex, if_neg (by simp)]
      dsimp only
      have hj2 : ∀ p, fileAt (copyInto (rmtree cur (ir ++ f)) (br ++ f)
          (ir ++ f)) (br ++ p) = fileAt fs1 (br ++ p) := by
        intro p
        rw [fileAt_copyInto,
          if_neg (fun hc => (roots_no_cross h1 h2 f p) hc.1),
          fileAt_rmtree, if_neg (roots_no_cross h1 h2 f p)]
        exact hj p
      have hk2 : ∀ q, fileAt (copyInto (rmtree cur (ir ++ f)) (br ++ f)
          (ir ++ f)) (ir ++ q) = fileAt fs0 (ir ++ q) := by
        intro q
        rw [fileAt_copyInto]
        by_cases hfq : f <+: q
        · have hpre : (ir ++ f) <+: ir ++ q :=
            (List.prefix_append_right_inj ir).mpr hfq
          have hrel : (ir ++ q).drop (ir ++ f).length = q.drop f.length :=
            drop_double hfq
          have hbq : (br ++ f) ++ (ir ++ q).drop (ir ++ f).length = br ++ q := by
            rw [hrel]
            exact append_drop_of_prefix hfq br
          have hval : fileAt (rmtree cur (ir ++ f))
              ((br ++ f) ++ (ir ++ q).drop (ir ++ f).length)
              = fileAt fs1 (br ++ q) := by
            rw [hbq, fileAt_rmtree, if_neg (roots_no_cross h1 h2 f q)]
            exact hj q
          by_cases hsf : isFile fs0 (ir ++ q) = true
          · have hcovq : coverB ir fs0 folders q = true := by
              apply List.any_eq_true.mpr
              refine ⟨f, hfin, ?_⟩
              rw [List.isPrefixOf_iff_prefix.mpr hfq, hex0]
              rfl
            have hv1 : fileAt fs1 (br ++ q) = fileAt fs0 (ir ++ q) := by
              rw [hB q, if_pos hcovq]
            have hfile2 : isFile (rmtree cur (ir ++ f))
                ((br ++ f) ++ (ir ++ q).drop (ir ++ f).length) = true := by
              unfold isFile
              rw [hval, hv1]
              exact hsf
            rw [if_pos ⟨hpre, hfile2⟩, hval, hv1]
          · have hsfn : fileAt fs0 (ir ++ q) = none :=
              fileAt_eq_none_of_not_isFile _ _ (by simpa using hsf)
            have hv1 : fileAt fs1 (br ++ q) = none := by
              rw [hB q, hsfn]
              split <;> rfl
            have hfile2 : isFile (rmtree cur (ir ++ f))
                ((br ++ f) ++ (ir ++ q).drop (ir ++ f).length) = false := by
              unfold isFile
              rw [hval, hv1]
              rfl
            rw [if_neg (fun hc => by rw [hfile2] at hc; exact absurd hc.2 (by simp))]
            rw [fileAt_rmtree, if_pos hpre, hsfn]
        · have hnpre : ¬ (ir ++ f) <+: ir ++ q := fun hc =>
            hfq ((List.prefix_append_right_inj ir).mp hc)
          rw [if_neg (fun hc => hnpre hc.1), fileAt_rmtree, if_neg hnpre]
          exact hk q
      exact ih (copyInto (rmtree cur (ir ++ f)) (br ++ f) (ir ++ f))
        (fun g hg => hsub g (List.mem_cons_of_mem _ hg)) hj2 hk2

/-- C8 counterexample.  A preserved path holding a regular file is not
"copied (file or directory)" and not skipped: shutil.copytree raises
NotADirectoryError, so backup — and with it the backup-restore round trip —
fails with an error instead of reproducing the tree. -/
theorem backup_fails_on_preserved_file :
    fsExists [(["game", "cfg.ini"], 3)] (["game"] ++ ["cfg.ini"]) = true ∧
    backupList ["game"] backup_dir [(["game", "cfg.ini"], 3)] [["cfg.ini"]] =
      ([(["game", "cfg.ini"], 3)], some "NotADirectoryError") := by
  exact ⟨by decide, by decide⟩

/-- C8 (amended).  For every installation root and list of preserved
relative paths each of which is a directory or absent (none is a regular
file), with the transient holding area starting empty and the two roots
not nested in one another, backup immediately followed by restore succeeds
— a preserved path that does not exist is skipped without error — and
leaves every path under the installation root with exactly its original
content. -/
theorem backup_restore_roundtrip (ir br : FPath) (fs : FS)
    (folders : List FPath)
    (h1 : ¬ ir <+: br) (h2 : ¬ br <+: ir)
    (hempty : ∀ p, fileAt fs (br ++ p) = none)
    (hdirs : ∀ f ∈ folders, isFile fs (ir ++ f) = false) :
    (backupList ir br fs folders).2 = none ∧
    (restoreList ir br (backupList ir br fs folders).1 folders).2 = none ∧
    (∀ q, fileAt
        (restoreList ir br (backupList ir br fs folders).1 folders).1
        (ir ++ q) = fileAt fs (ir ++ q)) := by
  have hb := backupList_spec ir br h1 h2 fs folders [] fs
    (fun p _ => rfl)
    (fun p => by rw [hempty p]; rfl)
    hdirs
  have hB : ∀ p, fileAt (backupList ir br fs folders).1 (br ++ p) =
      if coverB ir fs folders p then fileAt fs (ir ++ p) else none := by
    intro p
    have hx := hb.2.2 p
    rwa [List.nil_append] at hx
  have hr := restoreList_spec ir br h1 h2 fs
    (backupList ir br fs folders).1 folders hB hdirs folders
    (backupList ir br fs folders).1
    (fun g hg => hg)
    (fun p => rfl)
    (fun q => hb.2.1 (ir ++ q) (roots_no_reach h1 h2 q))
  exact ⟨hb.1, hr.1, hr.2⟩

/-- Witness for C8: two preserved folders, one existing as a directory and
one absent (skipped without error); the round trip succeeds and the
installation subtree keeps its content. -/
theorem backup_restore_roundtrip_witness :
    (¬ (["game"] : FPath) <+: ["temp_backup"]) ∧
    (¬ (["temp_backup"] : FPath) <+: ["game"]) ∧
    (backupList ["game"] ["temp_backup"]
      [(["game", "Makeplace", "Save", "s1"], 2), (["game", "other.txt"], 9)]
      [["Makeplace", "Save"], ["Makeplace", "Custom"]]).2 = none ∧
    (restoreList ["game"] ["temp_backup"]
      (backupList ["game"] ["temp_backup"]
        [(["game", "Makeplace", "Save", "s1"], 2), (["game", "other.txt"], 9)]
        [["Makeplace", "Save"], ["Makeplace", "Custom"]]).1
      [["Makeplace", "Save"], ["Makeplace", "Custom"]]).2 = none ∧
    (∀ q, fileAt
        (restoreList ["game"] ["temp_backup"]
          (backupList ["game"] ["temp_backup"]
            [(["game", "Makeplace", "Save", "s1"], 2),
             (["game", "other.txt"], 9)]
            [["Makeplace", "Save"], ["Makeplace", "Custom"]]).1
          [["Makeplace", "Save"], ["Makeplace", "Custom"]]).1
        (["game"] ++ q) =
      fileAt [(["game", "Makeplace", "Save", "s1"], 2),
        (["game", "other.txt"], 9)] (["game"] ++ q)) :=
  ⟨by decide, by decide,
   (backup_restore_roundtrip ["game"] ["temp_backup"]
      [(["game", "Makeplace", "Save", "s1"], 2), (["game", "other.txt"], 9)]
      [["Makeplace", "Save"], ["Makeplace", "Custom"]]
      (by decide) (by decide) (fun p => rfl) (by decide)).1,
   (backup_restore_roundtrip ["game"] ["temp_backup"]
      [(["game", "Makeplace", "Save", "s1"], 2), (["game", "other.txt"], 9)]
      [["Makeplace", "Save"], ["Makeplace", "Custom"]]
      (by decide) (by decide) (fun p => rfl) (by decide)).2.1,
   (backup_restore_roundtrip ["game"] ["temp_backup"]
      [(["game", "Makeplace", "Save", "s1"], 2), (["game", "other.txt"], 9)]
      [["Makeplace", "Save"], ["Makeplace", "Custom"]]
      (by decide) (by decide) (fun p => rfl) (by decide)).2.2⟩

end Updater
